import Mathlib

/-!
# PbsPacketFilter (src/pbs/model/pbs.cc): a shallow embedding

The priority classifier of the PBS packet filter, translated function by
function from `pbs.cc`.

Modelling conventions
* `double` values are exact rationals extended with NaN and the two
  infinities (`Dbl`); rounding is not modelled, a zero is read as `+0`.
* `pow` (libm) and `Hash32` (ns-3) are not part of the repository and are
  taken as parameters (`Host`).
* `std::map` is an association list with first-match lookup; iteration order
  is not modelled.
* The integer counters are unbounded naturals except `bytes_remaining`,
  which the source declares `uint32_t`, and the loop counter `bin_prio`,
  which the source declares `uint8_t`.
* Reading `m_prioLimits` outside its eight entries and `NS_FATAL_ERROR` end
  the call with a `Fault`.
-/

namespace Pbs

/-! ## doubles -/

/-- A `double`: NaN, an infinity, or an exact rational. -/
inductive Dbl where
  | nan : Dbl
  | negInf : Dbl
  | fin (q : ℚ) : Dbl
  | posInf : Dbl
  deriving DecidableEq

namespace Dbl

/-- The comparison `a <= b` of two doubles; false when either is NaN. -/
def le : Dbl → Dbl → Bool
  | nan, _ => false
  | _, nan => false
  | negInf, _ => true
  | _, posInf => true
  | fin a, fin b => decide (a ≤ b)
  | fin _, negInf => false
  | posInf, _ => false

/-- The comparison `a < b` of two doubles; false when either is NaN. -/
def lt : Dbl → Dbl → Bool
  | nan, _ => false
  | _, nan => false
  | negInf, negInf => false
  | negInf, _ => true
  | posInf, _ => false
  | fin a, fin b => decide (a < b)
  | fin _, negInf => false
  | fin _, posInf => true

/-- The quotient `a / b` of two doubles. -/
def div : Dbl → Dbl → Dbl
  | nan, _ => nan
  | _, nan => nan
  | fin a, fin b =>
    if b = 0 then (if a = 0 then nan else if 0 < a then posInf else negInf)
    else fin (a / b)
  | fin _, posInf => fin 0
  | fin _, negInf => fin 0
  | posInf, fin b => if 0 ≤ b then posInf else negInf
  | negInf, fin b => if 0 ≤ b then negInf else posInf
  | posInf, _ => nan
  | negInf, _ => nan

/-- Conversion of an unsigned integer to `double`. -/
def ofNat (n : Nat) : Dbl := fin (n : ℚ)

/-- Conversion of a signed integer to `double`. -/
def ofInt (n : Int) : Dbl := fin (n : ℚ)

end Dbl

/-! ## std::map -/

/-- Lookup in a `std::map` keyed by an unsigned integer (`find`). -/
def mapFind {V : Type} : List (Nat × V) → Nat → Option V
  | [], _ => none
  | (k, v) :: t, key => if k = key then some v else mapFind t key

/-- Assignment `m[key] = v`: overwrite the entry, or create it. -/
def mapSet {V : Type} : List (Nat × V) → Nat → V → List (Nat × V)
  | [], key, v => [(key, v)]
  | (k, w) :: t, key, v => if k = key then (k, v) :: t else (k, w) :: mapSet t key v

/-- Compound assignment `m[key] += d` on a map of counters: an absent entry is
value-initialised to zero first. -/
def mapAdd (m : List (Nat × Nat)) (key d : Nat) : List (Nat × Nat) :=
  mapSet m key ((mapFind m key).getD 0 + d)

/-- Sum of the values held by a map of counters. -/
def mapSum (m : List (Nat × Nat)) : Nat := (m.map Prod.snd).sum

/-! ## data model -/

/-- The per-flow record `FlowStats` (times in nanoseconds). -/
structure FlowStats where
  timeFirstTxPacket : Nat
  timeLastTxPacket : Nat
  flowAge : Int
  txBytes : Nat
  flowSize : Nat
  txPackets : Nat
  firstTx : Bool
  prioHistory : List (Nat × Nat)
  prioPacketHistory : List (Nat × Nat)
  rawPrioHistory : List (Dbl × Nat × Int)
  deriving DecidableEq

/-- The members of `PbsPacketFilter` that `DoClassify` reads or writes. -/
structure PbsPacketFilter where
  m_alpha : Dbl
  m_profile : Nat
  m_usePbs : Bool
  m_nonBlind : Bool
  m_totalBytes : Nat
  m_loadAtTime : List (Nat × Nat)
  m_flowStats : List (Nat × FlowStats)
  m_prioLimits : List Dbl
  deriving DecidableEq

/-- The ways a call can end without returning. -/
inductive Fault where
  | fatalInvalidProfile : Fault
  | prioLimitsOutOfRange (index : Nat) : Fault
  | scanDiverges : Fault
  deriving DecidableEq

/-- An `InetSocketAddress`: IPv4 address and port. -/
structure InetSocketAddress where
  ipv4 : Nat
  port : Nat
  deriving DecidableEq

/-- What `DoClassify` reads of a `BulkSendApplication`: its socket name (absent
when `GetSocket` is null) and the attributes `Remote` and `MaxBytes`. -/
structure BulkSendApplication where
  socket : Option InetSocketAddress
  remote : InetSocketAddress
  maxBytes : Nat
  deriving DecidableEq

/-- What `DoClassify` reads of a `QueueDiscItem`: `Hash ()` and `GetSize ()`. -/
structure QueueDiscItem where
  hash : Nat
  size : Nat
  deriving DecidableEq

/-- Library functions the source calls and the repository does not define. -/
structure Host where
  pow : Dbl → Dbl → Dbl
  Hash32 : List Nat → Nat

/-- The filter as its constructor and attribute defaults leave it, the four
attributes set; `m_prioLimits` holds no meaningful value before
`MakePrioLimits` runs. -/
def PbsPacketFilter.create (alpha : Dbl) (profile : Nat) (usePbs nonBlind : Bool) :
    PbsPacketFilter :=
  { m_alpha := alpha, m_profile := profile, m_usePbs := usePbs, m_nonBlind := nonBlind,
    m_totalBytes := 0, m_loadAtTime := [], m_flowStats := [],
    m_prioLimits := List.replicate 8 Dbl.nan }

/-! ## GetStatsForFlow -/

/-- The record `GetStatsForFlow` creates for a flow it has not seen. -/
def freshStats : FlowStats :=
  { timeFirstTxPacket := 0, timeLastTxPacket := 0, flowAge := 0, txBytes := 0,
    flowSize := 0, txPackets := 0, firstTx := true,
    prioHistory := (List.range 8).foldl (fun m prio => mapSet m prio 0) [],
    prioPacketHistory := (List.range 8).foldl (fun m prio => mapSet m prio 0) [],
    rawPrioHistory := [] }

/-- `GetStatsForFlow`: the stored record, or a fresh one inserted in the store.
Returns the record and the store. -/
def GetStatsForFlow (self : PbsPacketFilter) (flowId : Nat) : FlowStats × PbsPacketFilter :=
  match mapFind self.m_flowStats flowId with
  | none => (freshStats, { self with m_flowStats := mapSet self.m_flowStats flowId freshStats })
  | some st => (st, self)

/-! ## MakePrioLimits -/

/-- The `switch (m_profile)` of `MakePrioLimits`: the table `limits`, or none
in the `default` branch. -/
def profileLimits : Nat → Option (List ℚ)
  | 1 => some [2.5e-19, 1e-21, 4.4e-24, 1.9e-26, 7.8e-29, 3.3e-31, 1.4e-33, 5.8e-36]
  | 2 => some [6.1e-20, 1.5e-23, 3.6e-27, 8.7e-31, 2.1e-34, 5.1e-38, 1.2e-41, 2.9e-45]
  | 3 => some [5.8e-21, 7.3e-26, 9e-31, 1.1e-35, 1.3e-40, 1.6e-45, 2e-50, 2.5e-55]
  | 4 => some [2.6e-21, 1.2e-26, 5.3e-32, 2.4e-37, 1.1e-42, 4.9e-48, 2.2e-53, 1e-58]
  | 5 => some [1.2e-21, 2.7e-27, 6e-33, 1.3e-38, 3e-44, 6.5e-50, 1.4e-55, 3.2e-61]
  | 6 => some [2.6e-21, 1.2e-26, 5.3e-32, 2.4e-37, 1.1e-42, 4.9e-48, 2.2e-53, 1e-58]
  | 7 => some [1.2e-21, 2.7e-27, 6e-33, 1.3e-38, 3e-44, 6.5e-50, 1.4e-55, 3.2e-61]
  | _ => none

/-- The loop of `MakePrioLimits` that fills `m_prioLimits[0..7]` from `limits`. -/
def fillPrioLimits (nonBlind : Bool) (limits : List ℚ) : List Dbl :=
  (List.range 8).map fun i =>
    if nonBlind then Dbl.fin (limits.getD (8 - i - 1) 0) else Dbl.fin (limits.getD i 0)

/-- `MakePrioLimits`: fatal error on an unknown profile, otherwise the filter
with `m_prioLimits` rewritten. -/
def MakePrioLimits (self : PbsPacketFilter) : Except Fault PbsPacketFilter :=
  match profileLimits self.m_profile with
  | none => .error Fault.fatalInvalidProfile
  | some limits => .ok { self with m_prioLimits := fillPrioLimits self.m_nonBlind limits }

/-! ## DoClassify -/

/-- `GetLoadStats () += packetsize` at time `now`. -/
def addLoad (self : PbsPacketFilter) (now packetsize : Nat) : PbsPacketFilter :=
  { self with m_loadAtTime := mapAdd self.m_loadAtTime now packetsize }

/-- Lines 278-286: the counter and timestamp update of the flow record. -/
def touch (ref : FlowStats) (packetsize now : Nat) : FlowStats :=
  let ref1 := if ref.firstTx = true then
      { ref with timeFirstTxPacket := now, firstTx := false } else ref
  { ref1 with
    txBytes := ref1.txBytes + packetsize,
    txPackets := ref1.txPackets + 1,
    timeLastTxPacket := now,
    flowAge := (now : Int) - (ref1.timeFirstTxPacket : Int) }

/-- The seventeen bytes hashed for a candidate: both addresses, protocol 6,
both ports big-endian, four zero bytes. -/
def fiveTupleBuf (src dst : InetSocketAddress) : List Nat :=
  [(src.ipv4 >>> 24) % 256, (src.ipv4 >>> 16) % 256, (src.ipv4 >>> 8) % 256, src.ipv4 % 256,
   (dst.ipv4 >>> 24) % 256, (dst.ipv4 >>> 16) % 256, (dst.ipv4 >>> 8) % 256, dst.ipv4 % 256,
   6, (src.port >>> 8) % 256, src.port % 256, (dst.port >>> 8) % 256, dst.port % 256,
   0, 0, 0, 0]

/-- The loop over the node's applications (lines 295-330): `flowsize` after it.
An entry is none when the `DynamicCast` to `BulkSendApplication` gives null. -/
def resolveFlowSize (host : Host) (itemHash : Nat) :
    List (Option BulkSendApplication) → Nat → Nat
  | [], flowsize => flowsize
  | none :: rest, flowsize => resolveFlowSize host itemHash rest flowsize
  | some app :: rest, flowsize =>
    match app.socket with
    | none => resolveFlowSize host itemHash rest flowsize
    | some source =>
      if host.Hash32 (fiveTupleBuf source app.remote) = itemHash then app.maxBytes
      else resolveFlowSize host itemHash rest flowsize

/-- Lines 292-339: the record (with `flowSize` possibly cached) and `raw_prio`.
The two attributes read are passed in. -/
def rawPrio (host : Host) (m_nonBlind : Bool) (m_alpha : Dbl)
    (apps : List (Option BulkSendApplication)) (itemHash : Nat) (ref : FlowStats) :
    FlowStats × Dbl :=
  if m_nonBlind = true then
    let flowsize := if ref.flowSize = 0
      then resolveFlowSize host itemHash apps (ref.txBytes + 1) else ref.flowSize
    let ref1 := if ref.flowSize = 0 then { ref with flowSize := flowsize } else ref
    let bytes_remaining := (((flowsize : Int) - (ref.txBytes : Int)) % (2 ^ 32 : Int)).toNat
    (ref1, Dbl.div (Dbl.ofInt ref.flowAge) (host.pow (Dbl.ofNat bytes_remaining) m_alpha))
  else
    (ref, Dbl.div (Dbl.ofInt ref.flowAge) (host.pow (Dbl.ofNat ref.txBytes) m_alpha))

/-- The loop `for (bin_prio = 7; bin_prio >= 0; bin_prio--)` of lines 342-346.
`bin_prio` is a `uint8_t`: the condition always holds and the decrement is
modulo 256. `fuel` bounds the number of iterations. -/
def scanLoop (prioLimits : List Dbl) (raw_prio : Dbl) : Nat → Nat → Except Fault Nat
  | 0, _ => .error Fault.scanDiverges
  | fuel + 1, bin_prio =>
    match prioLimits[bin_prio]? with
    | none => .error (Fault.prioLimitsOutOfRange bin_prio)
    | some limit =>
      if Dbl.le raw_prio limit = true then .ok bin_prio
      else scanLoop prioLimits raw_prio fuel ((bin_prio + 255) % 256)

/-- Lines 341-349: the bin chosen once `raw_prio` is known. The 256 iterations
allowed to the scan cover every value of the `uint8_t` counter. -/
def selectBin (prioLimits : List Dbl) (raw_prio : Dbl) (ref : FlowStats) : Except Fault Nat :=
  if (!ref.firstTx && decide (ref.flowAge ≠ 0)) = true then scanLoop prioLimits raw_prio 256 7
  else .ok 0

/-- Lines 351-360: clamp, credit the bin in both histories, store the record,
return the bin. -/
def finish (self : PbsPacketFilter) (flowId : Nat) (ref : FlowStats) (packetsize bin_prio : Nat) :
    Nat × PbsPacketFilter :=
  let bin := max bin_prio 0
  let ref1 := { ref with
    prioHistory := mapAdd ref.prioHistory bin packetsize,
    prioPacketHistory := mapAdd ref.prioPacketHistory bin 1 }
  (bin, { self with m_flowStats := mapSet self.m_flowStats flowId ref1 })

/-- `DoClassify` for the item `item` at simulation time `now`, the node holding
the applications `apps`: the returned bin and the filter afterwards. -/
def DoClassify (host : Host) (self : PbsPacketFilter) (apps : List (Option BulkSendApplication))
    (item : QueueDiscItem) (now : Nat) : Except Fault (Nat × PbsPacketFilter) :=
  let flowId := item.hash
  let packetsize := item.size
  let self1 := addLoad { self with m_totalBytes := self.m_totalBytes + packetsize } now packetsize
  let (ref0, self2) := GetStatsForFlow self1 flowId
  let ref := touch ref0 packetsize now
  if self.m_usePbs = false then
    .ok (finish self2 flowId ref packetsize 0)
  else
    match MakePrioLimits self2 with
    | .error e => .error e
    | .ok self3 =>
      let (ref1, raw_prio) := rawPrio host self.m_nonBlind self.m_alpha apps item.hash ref
      let ref2 := { ref1 with
        rawPrioHistory := ref1.rawPrioHistory ++ [(raw_prio, ref1.txBytes, ref1.flowAge)] }
      match selectBin self3.m_prioLimits raw_prio ref2 with
      | .error e => .error e
      | .ok bin_prio => .ok (finish self3 flowId ref2 packetsize bin_prio)

/-- The flow record as lines 276-286 leave it, before the bin is chosen. -/
def updatedStats (self : PbsPacketFilter) (item : QueueDiscItem) (now : Nat) : FlowStats :=
  touch (GetStatsForFlow self item.hash).1 item.size now

/-- The value of `raw_prio` in the call, when `m_usePbs` holds. -/
def rawScore (host : Host) (self : PbsPacketFilter) (apps : List (Option BulkSendApplication))
    (item : QueueDiscItem) (now : Nat) : Dbl :=
  (rawPrio host self.m_nonBlind self.m_alpha apps item.hash (updatedStats self item now)).2

/-- The filter after lines 273-276: totals and load credited, the flow entered
in the store. -/
def accounted (self : PbsPacketFilter) (item : QueueDiscItem) (now : Nat) : PbsPacketFilter :=
  (GetStatsForFlow
    (addLoad { self with m_totalBytes := self.m_totalBytes + item.size } now item.size)
    item.hash).2

/-- The flow record after line 340, when `m_usePbs` holds: size cached and the
raw-history entry appended. -/
def scoredStats (host : Host) (self : PbsPacketFilter) (apps : List (Option BulkSendApplication))
    (item : QueueDiscItem) (now : Nat) : FlowStats :=
  let r := rawPrio host self.m_nonBlind self.m_alpha apps item.hash (updatedStats self item now)
  { r.1 with rawPrioHistory := r.1.rawPrioHistory ++ [(r.2, r.1.txBytes, r.1.flowAge)] }

/-- The `pow` used in worked examples: exact for a natural exponent, NaN
elsewhere. -/
def powNatExponent : Dbl → Dbl → Dbl
  | Dbl.fin x, Dbl.fin a => if a.den = 1 ∧ 0 ≤ a.num then Dbl.fin (x ^ a.num.toNat) else Dbl.nan
  | _, _ => Dbl.nan

/-- A host for worked examples: `powNatExponent` and a hash that sums the bytes. -/
def exampleHost : Host := { pow := powNatExponent, Hash32 := fun buf => buf.sum % 2 ^ 32 }

/-- A blind-mode filter with PBS on that has classified one packet, `txBytes`
bytes of flow 1 at time 0, into bin 0. -/
def seenOnePacket (alpha : Dbl) (profile txBytes : Nat) : PbsPacketFilter :=
  { m_alpha := alpha, m_profile := profile, m_usePbs := true, m_nonBlind := false,
    m_totalBytes := txBytes, m_loadAtTime := [(0, txBytes)],
    m_flowStats := [(1,
      { timeFirstTxPacket := 0, timeLastTxPacket := 0, flowAge := 0, txBytes := txBytes,
        flowSize := 0, txPackets := 1, firstTx := false,
        prioHistory := [(0, txBytes), (1, 0), (2, 0), (3, 0), (4, 0), (5, 0), (6, 0), (7, 0)],
        prioPacketHistory := [(0, 1), (1, 0), (2, 0), (3, 0), (4, 0), (5, 0), (6, 0), (7, 0)],
        rawPrioHistory := [(Dbl.fin 0, txBytes, 0)] })],
    m_prioLimits := fillPrioLimits false ((profileLimits profile).getD []) }

/-- Line 335: `uint32_t bytes_remaining = flowsize.Get () - ref.txBytes`, the
difference reduced modulo 2^32. -/
def bytesRemaining (flowsize txBytes : Nat) : Nat :=
  (((flowsize : Int) - (txBytes : Int)) % (2 ^ 32 : Int)).toNat

/-- `GetTotalBytes`: the total-bytes counter. -/
def GetTotalBytes (self : PbsPacketFilter) : Nat := self.m_totalBytes

/-- The conditions under which the loop over the applications stops at a
candidate (lines 299-326): the cast and the socket are non-null and the hash of
its five-tuple equals the hash of the item. -/
def candidateMatches (host : Host) (itemHash : Nat) : Option BulkSendApplication → Bool
  | none => false
  | some app =>
    match app.socket with
    | none => false
    | some source => decide (host.Hash32 (fiveTupleBuf source app.remote) = itemHash)

/-- The guards of lines 288, 292 and 294 under which a call runs the loop over
the applications. -/
def enumeratesCandidates (self : PbsPacketFilter) (item : QueueDiscItem) : Bool :=
  self.m_usePbs && self.m_nonBlind &&
    decide ((GetStatsForFlow self item.hash).1.flowSize = 0)

/-- The flow record at line 351: scored when `m_usePbs` holds, only touched
otherwise. -/
def classifiedStats (host : Host) (self : PbsPacketFilter)
    (apps : List (Option BulkSendApplication)) (item : QueueDiscItem) (now : Nat) : FlowStats :=
  if self.m_usePbs = true then scoredStats host self apps item now
  else updatedStats self item now

/-- One call of `DoClassify`: the applications of the node at that time, the
item and the simulation time. -/
structure Call where
  apps : List (Option BulkSendApplication)
  item : QueueDiscItem
  now : Nat

/-- A sequence of calls, each made on the filter the previous one left; stops
at the first call that does not return. -/
def runCalls (host : Host) : PbsPacketFilter → List Call → Except Fault PbsPacketFilter
  | s, [] => .ok s
  | s, c :: cs =>
    match DoClassify host s c.apps c.item c.now with
    | .error e => .error e
    | .ok r => runCalls host r.2 cs

/-- A non-blind filter with PBS on that has classified one packet, `txBytes`
bytes of flow 6 at time 0, into bin 0, and has cached `flowSize` for it. -/
def seenOnePacketNonBlind (alpha : Dbl) (profile txBytes flowSize : Nat) : PbsPacketFilter :=
  { m_alpha := alpha, m_profile := profile, m_usePbs := true, m_nonBlind := true,
    m_totalBytes := txBytes, m_loadAtTime := [(0, txBytes)],
    m_flowStats := [(6,
      { timeFirstTxPacket := 0, timeLastTxPacket := 0, flowAge := 0, txBytes := txBytes,
        flowSize := flowSize, txPackets := 1, firstTx := false,
        prioHistory := [(0, txBytes), (1, 0), (2, 0), (3, 0), (4, 0), (5, 0), (6, 0), (7, 0)],
        prioPacketHistory := [(0, 1), (1, 0), (2, 0), (3, 0), (4, 0), (5, 0), (6, 0), (7, 0)],
        rawPrioHistory := [(Dbl.fin 0, txBytes, 0)] })],
    m_prioLimits := fillPrioLimits true ((profileLimits profile).getD []) }

/-- A bulk-send application bound to 0.0.0.0:0 with remote 0.0.0.0:0; under
`exampleHost` its five-tuple hashes to 6. -/
def exampleApp (maxBytes : Nat) : BulkSendApplication :=
  { socket := some { ipv4 := 0, port := 0 }, remote := { ipv4 := 0, port := 0 },
    maxBytes := maxBytes }

/-- States reachable from a freshly constructed filter by successful calls. -/
inductive Reachable (host : Host) : PbsPacketFilter → Prop
  | create (alpha : Dbl) (profile : Nat) (usePbs nonBlind : Bool) :
      Reachable host (PbsPacketFilter.create alpha profile usePbs nonBlind)
  | step {s s' : PbsPacketFilter} (apps : List (Option BulkSendApplication))
      (item : QueueDiscItem) (now bin : Nat) :
      Reachable host s → DoClassify host s apps item now = .ok (bin, s') → Reachable host s'

/-! ## map lemmas -/

theorem mapFind_mapSet {V : Type} (m : List (Nat × V)) (key key2 : Nat) (v : V) :
    mapFind (mapSet m key v) key2 = if key = key2 then some v else mapFind m key2 := by
  induction m with
  | nil => simp [mapSet, mapFind]
  | cons hd tl ih =>
    obtain ⟨k, w⟩ := hd
    by_cases hk : k = key
    · subst hk
      by_cases h2 : k = key2 <;> simp [mapSet, mapFind, h2]
    · by_cases h2 : k = key2
      · subst h2
        simp [mapSet, mapFind, hk, Ne.symm hk]
      · simp [mapSet, mapFind, hk, h2, ih]

theorem mapSum_mapAdd (m : List (Nat × Nat)) (key d : Nat) :
    mapSum (mapAdd m key d) = mapSum m + d := by
  unfold mapAdd
  induction m with
  | nil => simp [mapSet, mapFind, mapSum]
  | cons hd tl ih =>
    obtain ⟨k, w⟩ := hd
    by_cases hk : k = key
    · simp [mapSet, mapFind, mapSum, hk]; omega
    · simp only [mapSum] at ih
      simp [mapSet, mapFind, mapSum, hk, ih]; omega

theorem mapFind_mapAdd (m : List (Nat × Nat)) (key d : Nat) :
    mapFind (mapAdd m key d) key = some ((mapFind m key).getD 0 + d) := by
  simp [mapAdd, mapFind_mapSet]

/-! ## the scan -/

theorem scanLoop_found (lim : List Dbl) (raw : Dbl) (hlen : lim.length ≤ 256) :
    ∀ (b fuel : Nat), b < lim.length → b < fuel →
      (∃ i t, i ≤ b ∧ lim[i]? = some t ∧ Dbl.le raw t = true) →
      ∃ i t, i ≤ b ∧ scanLoop lim raw fuel b = .ok i ∧ lim[i]? = some t ∧ Dbl.le raw t = true ∧
        ∀ j u, i < j → j ≤ b → lim[j]? = some u → Dbl.le raw u = false := by
  intro b
  induction b with
  | zero =>
    intro fuel hb hf ⟨i, t, hi, hit, hle⟩
    obtain rfl : i = 0 := by omega
    obtain ⟨f, rfl⟩ : ∃ f, fuel = f + 1 := ⟨fuel - 1, by omega⟩
    refine ⟨0, t, le_refl _, ?_, hit, hle, ?_⟩
    · simp [scanLoop, hit, hle]
    · intro j u h1 h2; omega
  | succ b ih =>
    intro fuel hb hf hex
    obtain ⟨f, rfl⟩ : ∃ f, fuel = f + 1 := ⟨fuel - 1, by omega⟩
    obtain ⟨t, ht⟩ : ∃ t, lim[b + 1]? = some t := ⟨lim[b + 1], by simp [hb]⟩
    by_cases hle : Dbl.le raw t = true
    · refine ⟨b + 1, t, le_refl _, ?_, ht, hle, ?_⟩
      · simp [scanLoop, ht, hle]
      · intro j u h1 h2; omega
    · have hnext : (b + 1 + 255) % 256 = b := by omega
      have hex2 : ∃ i t, i ≤ b ∧ lim[i]? = some t ∧ Dbl.le raw t = true := by
        obtain ⟨i, u, hi, hiu, hu⟩ := hex
        refine ⟨i, u, ?_, hiu, hu⟩
        by_contra hcon
        obtain rfl : i = b + 1 := by omega
        rw [ht] at hiu
        cases hiu
        exact hle hu
      obtain ⟨i, u, hi, hrun, hiu, hu, hmax⟩ := ih f (by omega) (by omega) hex2
      refine ⟨i, u, by omega, ?_, hiu, hu, ?_⟩
      · simp [scanLoop, ht, hle, hnext, hrun]
      · intro j w h1 h2 hjw
        by_cases hj : j = b + 1
        · subst hj
          rw [ht] at hjw
          cases hjw
          simpa using hle
        · exact hmax j w h1 (by omega) hjw

theorem scanLoop_wraps (lim : List Dbl) (raw : Dbl) (hlen : lim.length ≤ 255) :
    ∀ (b fuel : Nat), b < lim.length → b + 1 < fuel →
      (∀ i t, i ≤ b → lim[i]? = some t → Dbl.le raw t = false) →
      scanLoop lim raw fuel b = .error (Fault.prioLimitsOutOfRange 255) := by
  intro b
  induction b with
  | zero =>
    intro fuel hb hf hno
    obtain ⟨f, rfl⟩ : ∃ f, fuel = f + 2 := ⟨fuel - 2, by omega⟩
    obtain ⟨t, ht⟩ : ∃ t, lim[0]? = some t := ⟨lim[0], by simp [hb]⟩
    have h0 := hno 0 t (le_refl _) ht
    have h255 : lim[255]? = none := by simp; omega
    simp [scanLoop, ht, h0, h255]
  | succ b ih =>
    intro fuel hb hf hno
    obtain ⟨f, rfl⟩ : ∃ f, fuel = f + 1 := ⟨fuel - 1, by omega⟩
    obtain ⟨t, ht⟩ : ∃ t, lim[b + 1]? = some t := ⟨lim[b + 1], by simp [hb]⟩
    have h0 := hno (b + 1) t (le_refl _) ht
    have hnext : (b + 1 + 255) % 256 = b := by omega
    have hrec := ih f (by omega) (by omega) (fun i u hi hiu => hno i u (by omega) hiu)
    simp [scanLoop, ht, h0, hnext, hrec]

/-! ## the threshold tables -/

theorem profileLimits_eq_none_iff (p : Nat) : profileLimits p = none ↔ p = 0 ∨ 8 ≤ p := by
  constructor
  · intro h
    by_contra hcon
    have h1 : 1 ≤ p := by omega
    have h7 : p ≤ 7 := by omega
    interval_cases p <;> simp [profileLimits] at h
  · intro h
    unfold profileLimits
    split <;> first | rfl | omega

theorem profileLimits_valid (p : Nat) (h1 : 1 ≤ p) (h7 : p ≤ 7) :
    ∃ l, profileLimits p = some l ∧ l.length = 8 ∧ l.Pairwise (fun a b => b < a) := by
  interval_cases p <;> refine ⟨_, rfl, rfl, ?_⟩ <;> norm_num

theorem fillPrioLimits_blind (a0 a1 a2 a3 a4 a5 a6 a7 : ℚ) :
    fillPrioLimits false [a0, a1, a2, a3, a4, a5, a6, a7] =
      [Dbl.fin a0, Dbl.fin a1, Dbl.fin a2, Dbl.fin a3, Dbl.fin a4, Dbl.fin a5, Dbl.fin a6,
        Dbl.fin a7] := rfl

theorem fillPrioLimits_nonBlind (a0 a1 a2 a3 a4 a5 a6 a7 : ℚ) :
    fillPrioLimits true [a0, a1, a2, a3, a4, a5, a6, a7] =
      [Dbl.fin a7, Dbl.fin a6, Dbl.fin a5, Dbl.fin a4, Dbl.fin a3, Dbl.fin a2, Dbl.fin a1,
        Dbl.fin a0] := rfl

theorem fillPrioLimits_length (nb : Bool) (l : List ℚ) : (fillPrioLimits nb l).length = 8 := by
  simp [fillPrioLimits]

theorem list_of_length_eight {α : Type} (l : List α) (h : l.length = 8) :
    ∃ a0 a1 a2 a3 a4 a5 a6 a7, l = [a0, a1, a2, a3, a4, a5, a6, a7] := by
  match l, h with
  | [a0, a1, a2, a3, a4, a5, a6, a7], _ => exact ⟨a0, a1, a2, a3, a4, a5, a6, a7, rfl⟩

/-! ## unfolding DoClassify -/

theorem touch_firstTx (ref : FlowStats) (size now : Nat) : (touch ref size now).firstTx = false := by
  unfold touch
  cases h : ref.firstTx <;> simp [h]

theorem updatedStats_firstTx (self : PbsPacketFilter) (item : QueueDiscItem) (now : Nat) :
    (updatedStats self item now).firstTx = false := touch_firstTx _ _ _

theorem rawPrio_fst (host : Host) (nb : Bool) (alpha : Dbl)
    (apps : List (Option BulkSendApplication)) (h : Nat) (ref : FlowStats) :
    (rawPrio host nb alpha apps h ref).1 =
      { ref with flowSize := (rawPrio host nb alpha apps h ref).1.flowSize } := by
  obtain ⟨tf, tl, age, tx, flowSize, pk, ft, ph, pph, rh⟩ := ref
  unfold rawPrio
  cases nb
  · simp
  · by_cases hz : flowSize = 0 <;> simp [hz]

theorem scoredStats_firstTx (host : Host) (self : PbsPacketFilter)
    (apps : List (Option BulkSendApplication)) (item : QueueDiscItem) (now : Nat) :
    (scoredStats host self apps item now).firstTx = false := by
  unfold scoredStats
  simp only []
  rw [rawPrio_fst]
  exact updatedStats_firstTx self item now

theorem scoredStats_flowAge (host : Host) (self : PbsPacketFilter)
    (apps : List (Option BulkSendApplication)) (item : QueueDiscItem) (now : Nat) :
    (scoredStats host self apps item now).flowAge = (updatedStats self item now).flowAge := by
  unfold scoredStats
  simp only []
  rw [rawPrio_fst]

theorem DoClassify_disabled (host : Host) (self : PbsPacketFilter)
    (apps : List (Option BulkSendApplication)) (item : QueueDiscItem) (now : Nat)
    (hoff : self.m_usePbs = false) :
    DoClassify host self apps item now =
      .ok (finish (accounted self item now) item.hash (updatedStats self item now) item.size 0) := by
  unfold DoClassify accounted updatedStats
  simp [hoff, GetStatsForFlow, addLoad]
  cases mapFind self.m_flowStats item.hash <;> rfl

theorem DoClassify_enabled (host : Host) (self : PbsPacketFilter)
    (apps : List (Option BulkSendApplication)) (item : QueueDiscItem) (now : Nat)
    (limits : List ℚ) (hon : self.m_usePbs = true)
    (hp : profileLimits self.m_profile = some limits) :
    DoClassify host self apps item now =
      match selectBin (fillPrioLimits self.m_nonBlind limits) (rawScore host self apps item now)
          (scoredStats host self apps item now) with
      | .error e => .error e
      | .ok bin_prio =>
        .ok (finish { accounted self item now with
                m_prioLimits := fillPrioLimits self.m_nonBlind limits }
              item.hash (scoredStats host self apps item now) item.size bin_prio) := by
  unfold DoClassify accounted rawScore scoredStats updatedStats
  simp only [hon, GetStatsForFlow, addLoad, MakePrioLimits]
  cases hf : mapFind self.m_flowStats item.hash <;> simp [hp]

theorem DoClassify_invalid (host : Host) (self : PbsPacketFilter)
    (apps : List (Option BulkSendApplication)) (item : QueueDiscItem) (now : Nat)
    (hon : self.m_usePbs = true) (hp : profileLimits self.m_profile = none) :
    DoClassify host self apps item now = .error Fault.fatalInvalidProfile := by
  unfold DoClassify
  simp only [hon, GetStatsForFlow, addLoad, MakePrioLimits]
  cases hf : mapFind self.m_flowStats item.hash <;> simp [hp]

theorem selectBin_aged (lim : List Dbl) (raw : Dbl) (ref : FlowStats)
    (hf : ref.firstTx = false) (ha : ref.flowAge ≠ 0) :
    selectBin lim raw ref = scanLoop lim raw 256 7 := by
  simp [selectBin, hf, ha]

theorem selectBin_young (lim : List Dbl) (raw : Dbl) (ref : FlowStats)
    (ha : ref.flowAge = 0) : selectBin lim raw ref = .ok 0 := by
  simp [selectBin, ha]

/-! ## the scan inside DoClassify -/

theorem DoClassify_scan_found (host : Host) (self : PbsPacketFilter)
    (apps : List (Option BulkSendApplication)) (item : QueueDiscItem) (now : Nat)
    (limits : List ℚ) (hon : self.m_usePbs = true)
    (hp : profileLimits self.m_profile = some limits)
    (hage : (updatedStats self item now).flowAge ≠ 0)
    (hex : ∃ (i : Nat) (t : Dbl), (fillPrioLimits self.m_nonBlind limits)[i]? = some t ∧
      Dbl.le (rawScore host self apps item now) t = true) :
    ∃ b t s', DoClassify host self apps item now = .ok (b, s') ∧
      (fillPrioLimits self.m_nonBlind limits)[b]? = some t ∧
      Dbl.le (rawScore host self apps item now) t = true ∧
      ∀ (j : Nat) (u : Dbl), b < j → (fillPrioLimits self.m_nonBlind limits)[j]? = some u →
        Dbl.le (rawScore host self apps item now) u = false := by
  have hlen := fillPrioLimits_length self.m_nonBlind limits
  have hex2 : ∃ i t, i ≤ 7 ∧ (fillPrioLimits self.m_nonBlind limits)[i]? = some t ∧
      Dbl.le (rawScore host self apps item now) t = true := by
    obtain ⟨i, t, hit, hle⟩ := hex
    have hi : i < (fillPrioLimits self.m_nonBlind limits).length := by
      by_contra hcon
      rw [List.getElem?_eq_none (by omega)] at hit
      cases hit
    exact ⟨i, t, by omega, hit, hle⟩
  obtain ⟨b, t, hb, hrun, hbt, hle, hmax⟩ :=
    scanLoop_found (fillPrioLimits self.m_nonBlind limits) (rawScore host self apps item now)
      (by omega) 7 256 (by omega) (by omega) hex2
  refine ⟨b, t, (finish { accounted self item now with
      m_prioLimits := fillPrioLimits self.m_nonBlind limits }
      item.hash (scoredStats host self apps item now) item.size b).2, ?_, hbt, hle, ?_⟩
  · rw [DoClassify_enabled host self apps item now limits hon hp,
      selectBin_aged _ _ _ (scoredStats_firstTx host self apps item now)
        (by rw [scoredStats_flowAge]; exact hage), hrun]
    simp [finish]
  · intro j u hj hju
    have hj7 : j < (fillPrioLimits self.m_nonBlind limits).length := by
      by_contra hcon
      rw [List.getElem?_eq_none (by omega)] at hju
      cases hju
    exact hmax j u hj (by omega) hju

theorem DoClassify_scan_wraps (host : Host) (self : PbsPacketFilter)
    (apps : List (Option BulkSendApplication)) (item : QueueDiscItem) (now : Nat)
    (limits : List ℚ) (hon : self.m_usePbs = true)
    (hp : profileLimits self.m_profile = some limits)
    (hage : (updatedStats self item now).flowAge ≠ 0)
    (hno : ∀ (i : Nat) (t : Dbl), (fillPrioLimits self.m_nonBlind limits)[i]? = some t →
      Dbl.le (rawScore host self apps item now) t = false) :
    DoClassify host self apps item now = .error (Fault.prioLimitsOutOfRange 255) := by
  have hlen := fillPrioLimits_length self.m_nonBlind limits
  have hrun := scanLoop_wraps (fillPrioLimits self.m_nonBlind limits)
    (rawScore host self apps item now) (by omega) 7 256 (by omega) (by omega)
    (fun i t _ hit => hno i t hit)
  rw [DoClassify_enabled host self apps item now limits hon hp,
    selectBin_aged _ _ _ (scoredStats_firstTx host self apps item now)
      (by rw [scoredStats_flowAge]; exact hage), hrun]

theorem DoClassify_young (host : Host) (self : PbsPacketFilter)
    (apps : List (Option BulkSendApplication)) (item : QueueDiscItem) (now : Nat)
    (limits : List ℚ) (hon : self.m_usePbs = true)
    (hp : profileLimits self.m_profile = some limits)
    (hage : (updatedStats self item now).flowAge = 0) :
    DoClassify host self apps item now =
      .ok (0, (finish { accounted self item now with
                m_prioLimits := fillPrioLimits self.m_nonBlind limits }
              item.hash (scoredStats host self apps item now) item.size 0).2) := by
  rw [DoClassify_enabled host self apps item now limits hon hp,
    selectBin_young _ _ _ (by rw [scoredStats_flowAge]; exact hage)]
  simp [finish]

theorem DoClassify_scan_wraps_of_mem (host : Host) (self : PbsPacketFilter)
    (apps : List (Option BulkSendApplication)) (item : QueueDiscItem) (now : Nat)
    (limits : List ℚ) (nb : Bool) (raw : Dbl) (hon : self.m_usePbs = true)
    (hp : profileLimits self.m_profile = some limits)
    (hnb : self.m_nonBlind = nb)
    (hage : (updatedStats self item now).flowAge ≠ 0)
    (hraw : rawScore host self apps item now = raw)
    (hno : ∀ t ∈ fillPrioLimits nb limits, Dbl.le raw t = false) :
    DoClassify host self apps item now = .error (Fault.prioLimitsOutOfRange 255) := by
  subst hnb hraw
  exact DoClassify_scan_wraps host self apps item now limits hon hp hage
    (fun i t hit => hno t (List.getElem?_mem hit))

/-! ## claim C1: the scenario of the specification -/

/-- C1: on the scenario of the specification (profile 4, alpha 10, blind mode,
100 bytes at t=0 and 100 bytes at t=1,000,000 ns) the first call returns bin 0,
and the second, whose raw score 10^6/200^10 exceeds all eight thresholds, does
not return bin 0: the scan leaves index 0, wraps to 255 and reads
`m_prioLimits` out of range. -/
theorem scan_past_zero_on_spec_scenario :
    ∃ s1, DoClassify exampleHost (PbsPacketFilter.create (Dbl.fin 10) 4 true false) []
        { hash := 1, size := 100 } 0 = .ok (0, s1) ∧
      DoClassify exampleHost s1 [] { hash := 1, size := 100 } 1000000 =
        .error (Fault.prioLimitsOutOfRange 255) := by
  refine ⟨_, DoClassify_young exampleHost _ [] _ 0 _ rfl rfl (by decide), ?_⟩
  refine DoClassify_scan_wraps_of_mem exampleHost _ [] _ 1000000 _ false
    (Dbl.fin (1000000 / 200 ^ 10)) rfl rfl rfl ?_ ?_ ?_
  · simp [updatedStats, GetStatsForFlow, finish, accounted, mapFind, mapSet, touch, scoredStats,
      rawPrio, PbsPacketFilter.create, addLoad, freshStats]
  · simp [rawScore, updatedStats, GetStatsForFlow, finish, accounted, mapFind, mapSet, touch,
      scoredStats, rawPrio, PbsPacketFilter.create, addLoad, exampleHost, powNatExponent,
      Dbl.div, Dbl.ofNat, Dbl.ofInt, freshStats]
  · rw [fillPrioLimits_blind]
    simp only [List.mem_cons, List.mem_singleton, List.not_mem_nil, or_false, forall_eq_or_imp,
      forall_eq, Dbl.le]
    norm_num

/-! ## the state after a successful call -/

theorem GetStatsForFlow_fst (self : PbsPacketFilter) (flowId : Nat) :
    (GetStatsForFlow self flowId).1 = (mapFind self.m_flowStats flowId).getD freshStats := by
  unfold GetStatsForFlow
  cases mapFind self.m_flowStats flowId <;> rfl

theorem accounted_flowStats (self : PbsPacketFilter) (item : QueueDiscItem) (now : Nat) :
    (accounted self item now).m_flowStats =
      match mapFind self.m_flowStats item.hash with
      | none => mapSet self.m_flowStats item.hash freshStats
      | some _ => self.m_flowStats := by
  unfold accounted GetStatsForFlow addLoad
  simp only []
  cases mapFind self.m_flowStats item.hash <;> rfl

theorem mapFind_accounted_of_ne (self : PbsPacketFilter) (item : QueueDiscItem) (now f : Nat)
    (hf : item.hash ≠ f) :
    mapFind (accounted self item now).m_flowStats f = mapFind self.m_flowStats f := by
  rw [accounted_flowStats]
  cases mapFind self.m_flowStats item.hash <;> simp [mapFind_mapSet, hf]

/-- The flow record of the packet as a successful call leaves it, up to the two
fields the scoring step may write. -/
theorem DoClassify_ok_shape (host : Host) (self s' : PbsPacketFilter)
    (apps : List (Option BulkSendApplication)) (item : QueueDiscItem) (now b : Nat)
    (h : DoClassify host self apps item now = .ok (b, s')) :
    ∃ ref : FlowStats,
      s'.m_flowStats = mapSet (accounted self item now).m_flowStats item.hash
        { ref with prioHistory := mapAdd ref.prioHistory b item.size,
                   prioPacketHistory := mapAdd ref.prioPacketHistory b 1 } ∧
      ref.txBytes = (updatedStats self item now).txBytes ∧
      ref.txPackets = (updatedStats self item now).txPackets ∧
      ref.prioHistory = (updatedStats self item now).prioHistory ∧
      ref.prioPacketHistory = (updatedStats self item now).prioPacketHistory ∧
      ref.flowAge = (updatedStats self item now).flowAge ∧
      (b = 0 ∨ (updatedStats self item now).flowAge ≠ 0) := by
  cases hon : self.m_usePbs with
  | false =>
    rw [DoClassify_disabled host self apps item now hon] at h
    simp only [finish, Except.ok.injEq, Prod.mk.injEq] at h
    obtain ⟨hb, hs⟩ := h
    have hb0 : b = 0 := by rw [← hb]; rfl
    subst hb0
    refine ⟨updatedStats self item now, ?_, rfl, rfl, rfl, rfl, rfl, Or.inl rfl⟩
    rw [← hs]
    rfl
  | true =>
    cases hp : profileLimits self.m_profile with
    | none =>
      rw [DoClassify_invalid host self apps item now hon hp] at h
      cases h
    | some limits =>
      rw [DoClassify_enabled host self apps item now limits hon hp] at h
      cases hsel : selectBin (fillPrioLimits self.m_nonBlind limits)
          (rawScore host self apps item now) (scoredStats host self apps item now) with
      | error e =>
        rw [hsel] at h
        cases h
      | ok bin =>
        rw [hsel] at h
        simp only [finish, Except.ok.injEq, Prod.mk.injEq] at h
        obtain ⟨hb, hs⟩ := h
        have hbin : bin = b := by rw [← hb]; simp
        subst hbin
        have hshape : scoredStats host self apps item now =
            { updatedStats self item now with
              flowSize := (scoredStats host self apps item now).flowSize,
              rawPrioHistory := (scoredStats host self apps item now).rawPrioHistory } := by
          unfold scoredStats
          simp only []
          rw [rawPrio_fst]
        refine ⟨scoredStats host self apps item now, ?_, ?_, ?_, ?_, ?_, ?_, ?_⟩
        · rw [← hs]
          simp
        · rw [hshape]
        · rw [hshape]
        · rw [hshape]
        · rw [hshape]
        · rw [hshape]
        · by_cases hage : (updatedStats self item now).flowAge = 0
          · left
            rw [selectBin_young _ _ _ (by rw [scoredStats_flowAge]; exact hage)] at hsel
            cases hsel
            rfl
          · exact Or.inr hage

theorem MakePrioLimits_ok (self sl : PbsPacketFilter) (h : MakePrioLimits self = .ok sl) :
    ∃ limits, profileLimits self.m_profile = some limits ∧
      sl.m_prioLimits = fillPrioLimits self.m_nonBlind limits := by
  unfold MakePrioLimits at h
  cases hp : profileLimits self.m_profile with
  | none => rw [hp] at h; cases h
  | some limits =>
    rw [hp] at h
    simp only [Except.ok.injEq] at h
    exact ⟨limits, rfl, by rw [← h]⟩

/-! ## claims C2 and C3: the bin returned by the scan -/

/-- C2: a reachable state and a packet for which `DoClassify` returns no bin at
all: profile 1, alpha 1, blind mode, flow 7 sends 1500 bytes at t=0 and 1500
bytes at t=1000 ns; the raw score 1000/3000 exceeds every threshold and the
index used to read `m_prioLimits` becomes 255, outside 0..7. -/
theorem bin_index_leaves_range :
    ∃ s, Reachable exampleHost s ∧
      DoClassify exampleHost s [] { hash := 7, size := 1500 } 1000 =
        .error (Fault.prioLimitsOutOfRange 255) := by
  refine ⟨_, Reachable.step [] { hash := 7, size := 1500 } 0 0
    (Reachable.create (Dbl.fin 1) 1 true false)
    (DoClassify_young exampleHost _ [] _ 0 _ rfl rfl (by decide)), ?_⟩
  refine DoClassify_scan_wraps_of_mem exampleHost _ [] _ 1000 _ false
    (Dbl.fin (1000 / 3000)) rfl rfl rfl ?_ ?_ ?_
  · simp [updatedStats, GetStatsForFlow, finish, accounted, mapFind, mapSet, touch, scoredStats,
      rawPrio, PbsPacketFilter.create, addLoad, freshStats]
  · simp [rawScore, updatedStats, GetStatsForFlow, finish, accounted, mapFind, mapSet, touch,
      scoredStats, rawPrio, PbsPacketFilter.create, addLoad, exampleHost, powNatExponent,
      Dbl.div, Dbl.ofNat, Dbl.ofInt, freshStats]
  · rw [fillPrioLimits_blind]
    simp only [List.mem_cons, List.mem_singleton, List.not_mem_nil, or_false, forall_eq_or_imp,
      forall_eq, Dbl.le]
    norm_num

/-- C3: with PBS on and a valid profile (`MakePrioLimits` succeeds and yields
the ladder), for a packet that leaves the flow with a non-zero age and whose raw
score is `<=` at least one of the eight thresholds, `DoClassify` returns, and the
bin it returns is the largest index in 0..7 whose threshold is `>=` the raw
score. -/
theorem DoClassify_returns_largest_matching_bin (host : Host) (self sl : PbsPacketFilter)
    (apps : List (Option BulkSendApplication)) (item : QueueDiscItem) (now : Nat)
    (hon : self.m_usePbs = true)
    (hl : MakePrioLimits self = .ok sl)
    (hage : (updatedStats self item now).flowAge ≠ 0)
    (hex : ∃ (i : Nat) (t : Dbl), i < 8 ∧ sl.m_prioLimits[i]? = some t ∧
      Dbl.le (rawScore host self apps item now) t = true) :
    ∃ b t s', DoClassify host self apps item now = .ok (b, s') ∧ b < 8 ∧
      sl.m_prioLimits[b]? = some t ∧ Dbl.le (rawScore host self apps item now) t = true ∧
      ∀ (j : Nat) (u : Dbl), b < j → j < 8 → sl.m_prioLimits[j]? = some u →
        Dbl.le (rawScore host self apps item now) u = false := by
  obtain ⟨limits, hp, hlim⟩ := MakePrioLimits_ok self sl hl
  rw [hlim] at hex ⊢
  obtain ⟨i, t, _, hit, hle⟩ := hex
  obtain ⟨b, u, s', hrun, hbu, hble, hmax⟩ :=
    DoClassify_scan_found host self apps item now limits hon hp hage ⟨i, t, hit, hle⟩
  have hb : b < 8 := by
    by_contra hcon
    rw [List.getElem?_eq_none (by rw [fillPrioLimits_length]; omega)] at hbu
    cases hbu
  exact ⟨b, u, s', hrun, hb, hbu, hble, fun j w hj _ hjw => hmax j w hj hjw⟩

/-- C3, witness: profile 4, alpha 10; flow 1 has sent 999999 bytes at t=0 and
sends 1 byte at t=1 ns, so the raw score is 1/(10^6)^10 = 1e-60, below the
threshold 1e-58 of bin 7. -/
theorem DoClassify_returns_largest_matching_bin_witness :
    ∃ b t s', DoClassify exampleHost (seenOnePacket (Dbl.fin 10) 4 999999) []
        { hash := 1, size := 1 } 1 = .ok (b, s') ∧ b < 8 ∧
      (fillPrioLimits false [2.6e-21, 1.2e-26, 5.3e-32, 2.4e-37, 1.1e-42, 4.9e-48, 2.2e-53,
        1e-58])[b]? = some t ∧
      Dbl.le (rawScore exampleHost (seenOnePacket (Dbl.fin 10) 4 999999) []
        { hash := 1, size := 1 } 1) t = true ∧
      ∀ (j : Nat) (u : Dbl), b < j → j < 8 →
        (fillPrioLimits false [2.6e-21, 1.2e-26, 5.3e-32, 2.4e-37, 1.1e-42, 4.9e-48, 2.2e-53,
          1e-58])[j]? = some u →
        Dbl.le (rawScore exampleHost (seenOnePacket (Dbl.fin 10) 4 999999) []
          { hash := 1, size := 1 } 1) u = false :=
  DoClassify_returns_largest_matching_bin exampleHost (seenOnePacket (Dbl.fin 10) 4 999999) _ []
    { hash := 1, size := 1 } 1 rfl rfl
    (by simp [updatedStats, GetStatsForFlow, seenOnePacket, mapFind, touch])
    ⟨7, Dbl.fin 1e-58, by decide, rfl, by
      simp [rawScore, updatedStats, GetStatsForFlow, seenOnePacket, mapFind, touch, rawPrio,
        exampleHost, powNatExponent, Dbl.div, Dbl.ofNat, Dbl.ofInt, Dbl.le]
      norm_num⟩

/-! ## claim C4: conservation -/

theorem freshStats_sums : mapSum freshStats.prioHistory = freshStats.txBytes ∧
    mapSum freshStats.prioPacketHistory = freshStats.txPackets := by
  constructor <;> rfl

theorem touch_fields (ref : FlowStats) (size now : Nat) :
    (touch ref size now).txBytes = ref.txBytes + size ∧
    (touch ref size now).txPackets = ref.txPackets + 1 ∧
    (touch ref size now).prioHistory = ref.prioHistory ∧
    (touch ref size now).prioPacketHistory = ref.prioPacketHistory := by
  unfold touch
  cases ref.firstTx <;> simp

/-- Conservation is kept by every successful call. -/
theorem DoClassify_conserves (host : Host) (self s' : PbsPacketFilter)
    (apps : List (Option BulkSendApplication)) (item : QueueDiscItem) (now b : Nat)
    (h : DoClassify host self apps item now = .ok (b, s'))
    (hinv : ∀ f st, mapFind self.m_flowStats f = some st →
      mapSum st.prioHistory = st.txBytes ∧ mapSum st.prioPacketHistory = st.txPackets) :
    ∀ f st, mapFind s'.m_flowStats f = some st →
      mapSum st.prioHistory = st.txBytes ∧ mapSum st.prioPacketHistory = st.txPackets := by
  obtain ⟨ref, hs, htx, hpk, hph, hpph, _, _⟩ := DoClassify_ok_shape host self s' apps item now b h
  have hold : mapSum ((mapFind self.m_flowStats item.hash).getD freshStats).prioHistory =
        ((mapFind self.m_flowStats item.hash).getD freshStats).txBytes ∧
      mapSum ((mapFind self.m_flowStats item.hash).getD freshStats).prioPacketHistory =
        ((mapFind self.m_flowStats item.hash).getD freshStats).txPackets := by
    cases hfind : mapFind self.m_flowStats item.hash with
    | none => exact freshStats_sums
    | some st => exact hinv item.hash st hfind
  obtain ⟨t1, t2, t3, t4⟩ :=
    touch_fields ((mapFind self.m_flowStats item.hash).getD freshStats) item.size now
  intro f st hf
  rw [hs, mapFind_mapSet] at hf
  by_cases hfe : item.hash = f
  · rw [if_pos hfe] at hf
    simp only [Option.some.injEq] at hf
    subst hf
    simp only [mapSum_mapAdd]
    rw [htx, hpk, hph, hpph]
    unfold updatedStats
    rw [GetStatsForFlow_fst, t1, t2, t3, t4, hold.1, hold.2]
    exact ⟨rfl, rfl⟩
  · rw [if_neg hfe, mapFind_accounted_of_ne self item now f hfe] at hf
    exact hinv f st hf

/-- C4: in every state reachable from the freshly constructed filter by
successful `DoClassify` calls, every flow of the store has its per-bin byte
counts summing to `txBytes` and its per-bin packet counts summing to
`txPackets`. -/
theorem conservation_of_histories (host : Host) (s : PbsPacketFilter) (hs : Reachable host s) :
    ∀ f st, mapFind s.m_flowStats f = some st →
      mapSum st.prioHistory = st.txBytes ∧ mapSum st.prioPacketHistory = st.txPackets := by
  induction hs with
  | create alpha profile usePbs nonBlind =>
    intro f st hf
    simp [PbsPacketFilter.create, mapFind] at hf
  | step apps item now bin _ hcall ih =>
    exact DoClassify_conserves host _ _ apps item now bin hcall ih

/-- C4, witness: the state after flow 1 sends 100 bytes at t=0 to a filter with
profile 4, alpha 10, blind mode. -/
theorem conservation_of_histories_witness :
    Reachable exampleHost
        (finish { accounted (PbsPacketFilter.create (Dbl.fin 10) 4 true false)
                    { hash := 1, size := 100 } 0 with
                  m_prioLimits := fillPrioLimits false
                    [2.6e-21, 1.2e-26, 5.3e-32, 2.4e-37, 1.1e-42, 4.9e-48, 2.2e-53, 1e-58] }
          1 (scoredStats exampleHost (PbsPacketFilter.create (Dbl.fin 10) 4 true false) []
            { hash := 1, size := 100 } 0) 100 0).2 ∧
      ∀ f st, mapFind
        (finish { accounted (PbsPacketFilter.create (Dbl.fin 10) 4 true false)
                    { hash := 1, size := 100 } 0 with
                  m_prioLimits := fillPrioLimits false
                    [2.6e-21, 1.2e-26, 5.3e-32, 2.4e-37, 1.1e-42, 4.9e-48, 2.2e-53, 1e-58] }
          1 (scoredStats exampleHost (PbsPacketFilter.create (Dbl.fin 10) 4 true false) []
            { hash := 1, size := 100 } 0) 100 0).2.m_flowStats f = some st →
        mapSum st.prioHistory = st.txBytes ∧ mapSum st.prioPacketHistory = st.txPackets :=
  have hr := Reachable.step [] { hash := 1, size := 100 } 0 0
    (Reachable.create (Dbl.fin 10) 4 true false)
    (DoClassify_young exampleHost (PbsPacketFilter.create (Dbl.fin 10) 4 true false) []
      { hash := 1, size := 100 } 0 _ rfl rfl (by decide))
  ⟨hr, conservation_of_histories exampleHost _ hr⟩

/-! ## claims C5 and C6: first packet, disabled mode -/

theorem mapFind_mapAdd_of_ne (m : List (Nat × Nat)) (key key2 d : Nat) (h : key ≠ key2) :
    mapFind (mapAdd m key d) key2 = mapFind m key2 := by
  simp [mapAdd, mapFind_mapSet, h]

theorem updatedStats_flowAge_of_fresh (self : PbsPacketFilter) (item : QueueDiscItem) (now : Nat)
    (h : mapFind self.m_flowStats item.hash = none) :
    (updatedStats self item now).flowAge = 0 := by
  unfold updatedStats
  rw [GetStatsForFlow_fst, h]
  simp [touch, freshStats]

/-- C5: for a valid profile (1..7), any alpha and either mode, a call for a flow
that is not yet in the store, or that leaves the flow with age 0, returns bin 0
and stores the flow with age 0; and whenever a call returns leaving the flow
with age 0, the bin it returned is 0. -/
theorem first_packet_rule (host : Host) (self : PbsPacketFilter)
    (apps : List (Option BulkSendApplication)) (item : QueueDiscItem) (now : Nat)
    (hprofile : 1 ≤ self.m_profile ∧ self.m_profile ≤ 7) :
    ((mapFind self.m_flowStats item.hash = none ∨ (updatedStats self item now).flowAge = 0) →
      ∃ s' st', DoClassify host self apps item now = .ok (0, s') ∧
        mapFind s'.m_flowStats item.hash = some st' ∧ st'.flowAge = 0) ∧
    (∀ b s' st', DoClassify host self apps item now = .ok (b, s') →
      mapFind s'.m_flowStats item.hash = some st' → st'.flowAge = 0 → b = 0) := by
  have hconv : ∀ b s' st', DoClassify host self apps item now = .ok (b, s') →
      mapFind s'.m_flowStats item.hash = some st' →
      st'.flowAge = (updatedStats self item now).flowAge ∧
        (b = 0 ∨ (updatedStats self item now).flowAge ≠ 0) := by
    intro b s' st' hcall hfind
    obtain ⟨ref, hs, _, _, _, _, hage, hb⟩ := DoClassify_ok_shape host self s' apps item now b hcall
    rw [hs, mapFind_mapSet, if_pos rfl] at hfind
    simp only [Option.some.injEq] at hfind
    subst hfind
    exact ⟨hage, hb⟩
  constructor
  · intro h
    have hage : (updatedStats self item now).flowAge = 0 := by
      rcases h with h | h
      · exact updatedStats_flowAge_of_fresh self item now h
      · exact h
    have hcall : ∃ s', DoClassify host self apps item now = .ok (0, s') := by
      cases hon : self.m_usePbs with
      | false => exact ⟨_, DoClassify_disabled host self apps item now hon⟩
      | true =>
        obtain ⟨limits, hp, _, _⟩ := profileLimits_valid self.m_profile hprofile.1 hprofile.2
        exact ⟨_, DoClassify_young host self apps item now limits hon hp hage⟩
    obtain ⟨s', hcall⟩ := hcall
    obtain ⟨ref, hs, _⟩ := DoClassify_ok_shape host self s' apps item now 0 hcall
    have hfind : mapFind s'.m_flowStats item.hash = some
        { ref with prioHistory := mapAdd ref.prioHistory 0 item.size,
                   prioPacketHistory := mapAdd ref.prioPacketHistory 0 1 } := by
      rw [hs, mapFind_mapSet, if_pos rfl]
    exact ⟨s', _, hcall, hfind, by rw [(hconv 0 s' _ hcall hfind).1, hage]⟩
  · intro b s' st' hcall hfind hzero
    obtain ⟨hage, hb⟩ := hconv b s' st' hcall hfind
    rcases hb with hb | hb
    · exact hb
    · exact absurd (hage ▸ hzero) hb

/-- C5, witness: profile 4, alpha 10, blind mode, 100 bytes at t=0 for a flow
the fresh filter has not seen: bin 0. -/
theorem first_packet_rule_witness :
    ∃ s' st', DoClassify exampleHost (PbsPacketFilter.create (Dbl.fin 10) 4 true false) []
        { hash := 1, size := 100 } 0 = .ok (0, s') ∧
      mapFind s'.m_flowStats 1 = some st' ∧ st'.flowAge = 0 :=
  (first_packet_rule exampleHost (PbsPacketFilter.create (Dbl.fin 10) 4 true false) []
    { hash := 1, size := 100 } 0 ⟨by decide, by decide⟩).1 (Or.inl rfl)

/-- C6: with `m_usePbs` false, whatever the profile (valid or not), alpha and
mode, `DoClassify` returns bin 0; no flow has an entry appended to its raw
history (the packet's flow keeps the one it had, a new flow has none); and the
packet's bytes and count are added to bin 0 of the flow's two histories, the
other bins keeping their values. -/
theorem disabled_mode (host : Host) (self : PbsPacketFilter)
    (apps : List (Option BulkSendApplication)) (item : QueueDiscItem) (now : Nat)
    (hoff : self.m_usePbs = false) :
    ∃ s' st', DoClassify host self apps item now = .ok (0, s') ∧
      (∀ g, ((mapFind s'.m_flowStats g).map FlowStats.rawPrioHistory).getD [] =
        ((mapFind self.m_flowStats g).map FlowStats.rawPrioHistory).getD []) ∧
      mapFind s'.m_flowStats item.hash = some st' ∧
      mapFind st'.prioHistory 0 = some
        ((mapFind ((mapFind self.m_flowStats item.hash).getD freshStats).prioHistory 0).getD 0
          + item.size) ∧
      mapFind st'.prioPacketHistory 0 = some
        ((mapFind ((mapFind self.m_flowStats item.hash).getD freshStats).prioPacketHistory 0).getD 0
          + 1) ∧
      ∀ k, k ≠ 0 →
        mapFind st'.prioHistory k =
          mapFind ((mapFind self.m_flowStats item.hash).getD freshStats).prioHistory k ∧
        mapFind st'.prioPacketHistory k =
          mapFind ((mapFind self.m_flowStats item.hash).getD freshStats).prioPacketHistory k := by
  have hu : (updatedStats self item now).prioHistory =
        ((mapFind self.m_flowStats item.hash).getD freshStats).prioHistory ∧
      (updatedStats self item now).prioPacketHistory =
        ((mapFind self.m_flowStats item.hash).getD freshStats).prioPacketHistory ∧
      (updatedStats self item now).rawPrioHistory =
        ((mapFind self.m_flowStats item.hash).getD freshStats).rawPrioHistory := by
    unfold updatedStats
    rw [GetStatsForFlow_fst]
    unfold touch
    cases ((mapFind self.m_flowStats item.hash).getD freshStats).firstTx <;> simp
  refine ⟨(finish (accounted self item now) item.hash (updatedStats self item now) item.size 0).2,
    { updatedStats self item now with
      prioHistory := mapAdd (updatedStats self item now).prioHistory 0 item.size,
      prioPacketHistory := mapAdd (updatedStats self item now).prioPacketHistory 0 1 },
    DoClassify_disabled host self apps item now hoff, ?_, ?_, ?_, ?_, ?_⟩
  · intro g
    simp only [finish, mapFind_mapSet]
    by_cases hg : item.hash = g
    · subst hg
      rw [if_pos rfl]
      simp only [Option.map_some', Option.getD_some]
      rw [hu.2.2]
      cases mapFind self.m_flowStats item.hash <;> rfl
    · rw [if_neg hg, mapFind_accounted_of_ne self item now g hg]
  · simp only [finish, mapFind_mapSet, if_pos]
    rfl
  · simp only [mapFind_mapAdd, hu.1]
  · simp only [mapFind_mapAdd, hu.2.1]
  · intro k hk
    simp only [mapFind_mapAdd_of_ne _ 0 k _ (Ne.symm hk), hu.1, hu.2.1, and_self]

/-- C6, witness: PBS off and the invalid profile 0; 100 bytes of flow 1 at t=0. -/
theorem disabled_mode_witness :
    ∃ s' st', DoClassify exampleHost (PbsPacketFilter.create (Dbl.fin 10) 0 false false) []
        { hash := 1, size := 100 } 0 = .ok (0, s') ∧
      (∀ g, ((mapFind s'.m_flowStats g).map FlowStats.rawPrioHistory).getD [] =
        ((mapFind (PbsPacketFilter.create (Dbl.fin 10) 0 false false).m_flowStats g).map
          FlowStats.rawPrioHistory).getD []) ∧
      mapFind s'.m_flowStats 1 = some st' ∧
      mapFind st'.prioHistory 0 = some
        ((mapFind ((mapFind (PbsPacketFilter.create (Dbl.fin 10) 0 false false).m_flowStats
          1).getD freshStats).prioHistory 0).getD 0 + 100) ∧
      mapFind st'.prioPacketHistory 0 = some
        ((mapFind ((mapFind (PbsPacketFilter.create (Dbl.fin 10) 0 false false).m_flowStats
          1).getD freshStats).prioPacketHistory 0).getD 0 + 1) ∧
      ∀ k, k ≠ 0 →
        mapFind st'.prioHistory k =
          mapFind ((mapFind (PbsPacketFilter.create (Dbl.fin 10) 0 false false).m_flowStats
            1).getD freshStats).prioHistory k ∧
        mapFind st'.prioPacketHistory k =
          mapFind ((mapFind (PbsPacketFilter.create (Dbl.fin 10) 0 false false).m_flowStats
            1).getD freshStats).prioPacketHistory k :=
  disabled_mode exampleHost (PbsPacketFilter.create (Dbl.fin 10) 0 false false) []
    { hash := 1, size := 100 } 0 rfl

/-! ## shape of the two ladders -/

theorem fillPrioLimits_blind_eq_map (limits : List ℚ) (hlen : limits.length = 8) :
    fillPrioLimits false limits = limits.map Dbl.fin := by
  obtain ⟨a0, a1, a2, a3, a4, a5, a6, a7, rfl⟩ := list_of_length_eight limits hlen
  rfl

theorem fillPrioLimits_nonBlind_eq_reverse (limits : List ℚ) (hlen : limits.length = 8) :
    fillPrioLimits true limits = (fillPrioLimits false limits).reverse := by
  obtain ⟨a0, a1, a2, a3, a4, a5, a6, a7, rfl⟩ := list_of_length_eight limits hlen
  rfl

theorem blind_ladder_pair (limits : List ℚ) (hlen : limits.length = 8)
    (hpw : limits.Pairwise (fun a b => b < a)) (i j : Nat) (hij : i < j) (hj : j < 8) :
    ∃ a b : ℚ, (fillPrioLimits false limits)[i]? = some (Dbl.fin a) ∧
      (fillPrioLimits false limits)[j]? = some (Dbl.fin b) ∧ b < a := by
  rw [fillPrioLimits_blind_eq_map limits hlen]
  have hi' : i < limits.length := by omega
  have hj' : j < limits.length := by omega
  refine ⟨limits[i], limits[j], ?_, ?_, ?_⟩
  · simp [List.getElem?_map, List.getElem?_eq_getElem hi']
  · simp [List.getElem?_map, List.getElem?_eq_getElem hj']
  · exact List.pairwise_iff_getElem.mp hpw i j hi' hj' hij

/-! ## claims C7 to C10: the ladder -/

theorem MakePrioLimits_of_profile (self : PbsPacketFilter) (limits : List ℚ)
    (hp : profileLimits self.m_profile = some limits) :
    MakePrioLimits self =
      .ok { self with m_prioLimits := fillPrioLimits self.m_nonBlind limits } := by
  simp [MakePrioLimits, hp]

/-- C7, as stated, fails: in blind mode the ladder is not increasing. For
profile 1 the thresholds of bins 0 and 1 are 2.5e-19 and 1e-21. -/
theorem blind_ladder_not_increasing :
    ¬ (∀ (self sl : PbsPacketFilter), 1 ≤ self.m_profile → self.m_profile ≤ 7 →
        self.m_nonBlind = false → MakePrioLimits self = .ok sl →
        ∀ (i : Nat) (a b : Dbl), i < 7 → sl.m_prioLimits[i]? = some a →
          sl.m_prioLimits[i + 1]? = some b → Dbl.lt a b = true) := by
  intro h
  have hlt := h (PbsPacketFilter.create (Dbl.fin 10) 1 true false) _ (by decide) (by decide) rfl rfl
    0 (Dbl.fin 2.5e-19) (Dbl.fin 1e-21) (by decide) rfl rfl
  simp only [Dbl.lt, decide_eq_true_eq] at hlt
  norm_num at hlt

/-- C7, amended: for every valid profile 1..7 `MakePrioLimits` in blind mode
succeeds and the eight thresholds it writes are strictly decreasing with the bin
index: `m_prioLimits[i + 1] < m_prioLimits[i]` for all i in 0..6. -/
theorem blind_ladder_strictly_decreasing (self : PbsPacketFilter)
    (hprofile : 1 ≤ self.m_profile ∧ self.m_profile ≤ 7) (hblind : self.m_nonBlind = false) :
    ∃ sl, MakePrioLimits self = .ok sl ∧
      ∀ i, i < 7 → ∃ a b, sl.m_prioLimits[i]? = some a ∧ sl.m_prioLimits[i + 1]? = some b ∧
        Dbl.lt b a = true := by
  obtain ⟨limits, hp, hlen, hpw⟩ := profileLimits_valid self.m_profile hprofile.1 hprofile.2
  refine ⟨_, MakePrioLimits_of_profile self limits hp, ?_⟩
  intro i hi
  obtain ⟨a, b, ha, hb, hab⟩ := blind_ladder_pair limits hlen hpw i (i + 1) (by omega) (by omega)
  refine ⟨Dbl.fin a, Dbl.fin b, ?_, ?_, ?_⟩
  · simpa [hblind] using ha
  · simpa [hblind] using hb
  · simpa [Dbl.lt] using hab

/-- C7, witness of the amended statement: profile 4 in blind mode. -/
theorem blind_ladder_strictly_decreasing_witness :
    ∃ sl, MakePrioLimits (PbsPacketFilter.create (Dbl.fin 10) 4 true false) = .ok sl ∧
      ∀ i, i < 7 → ∃ a b, sl.m_prioLimits[i]? = some a ∧ sl.m_prioLimits[i + 1]? = some b ∧
        Dbl.lt b a = true :=
  blind_ladder_strictly_decreasing (PbsPacketFilter.create (Dbl.fin 10) 4 true false)
    ⟨by decide, by decide⟩ rfl

/-- C8: in blind mode with PBS on and a valid profile (`MakePrioLimits` succeeds
and yields the ladder), a packet that leaves the flow with a non-zero age and
whose raw score equals the threshold of bin i is classified into bin i. -/
theorem tie_goes_to_its_bin (host : Host) (self sl : PbsPacketFilter)
    (apps : List (Option BulkSendApplication)) (item : QueueDiscItem) (now : Nat)
    (i : Nat) (t : Dbl)
    (hon : self.m_usePbs = true) (hblind : self.m_nonBlind = false)
    (hl : MakePrioLimits self = .ok sl)
    (hage : (updatedStats self item now).flowAge ≠ 0)
    (hi : sl.m_prioLimits[i]? = some t)
    (htie : rawScore host self apps item now = t) :
    ∃ s', DoClassify host self apps item now = .ok (i, s') := by
  obtain ⟨limits, hp, hlim⟩ := MakePrioLimits_ok self sl hl
  rw [hlim, hblind] at hi
  have hprofile : 1 ≤ self.m_profile ∧ self.m_profile ≤ 7 := by
    have hne : ¬ (self.m_profile = 0 ∨ 8 ≤ self.m_profile) := by
      intro hbad
      rw [(profileLimits_eq_none_iff self.m_profile).mpr hbad] at hp
      cases hp
    omega
  obtain ⟨limits2, hp2, hlen, hpw⟩ := profileLimits_valid self.m_profile hprofile.1 hprofile.2
  rw [hp] at hp2
  cases hp2
  have hi8 : i < 8 := by
    by_contra hcon
    rw [List.getElem?_eq_none (by rw [fillPrioLimits_length]; omega)] at hi
    cases hi
  obtain ⟨q, hq⟩ : ∃ q, t = Dbl.fin q := by
    rw [fillPrioLimits_blind_eq_map limits hlen, List.getElem?_map] at hi
    cases hlq : limits[i]? with
    | none => rw [hlq] at hi; cases hi
    | some q => rw [hlq] at hi; exact ⟨q, by simpa using hi.symm⟩
  subst hq
  have hself : Dbl.le (rawScore host self apps item now) (Dbl.fin q) = true := by
    rw [htie]
    simp [Dbl.le]
  obtain ⟨b, u, s', hrun, hbu, hble, hmax⟩ :=
    DoClassify_scan_found host self apps item now limits hon hp hage
      ⟨i, Dbl.fin q, by rw [hblind]; exact hi, hself⟩
  rw [hblind] at hbu hmax
  have hb8 : b < 8 := by
    by_contra hcon
    rw [List.getElem?_eq_none (by rw [fillPrioLimits_length]; omega)] at hbu
    cases hbu
  have hib : i ≤ b := by
    by_contra hcon
    have hfalse := hmax i (Dbl.fin q) (by omega) hi
    rw [hself] at hfalse
    cases hfalse
  have hbi : b ≤ i := by
    by_contra hcon
    obtain ⟨x, y, hx, hy, hyx⟩ := blind_ladder_pair limits hlen hpw i b (by omega) hb8
    rw [hi] at hx
    rw [hbu] at hy
    simp only [Option.some.injEq, Dbl.fin.injEq] at hx
    subst hx
    simp only [Option.some.injEq] at hy
    subst hy
    rw [htie] at hble
    simp only [Dbl.le, decide_eq_true_eq] at hble
    exact absurd hyx (not_lt.mpr hble)
  obtain rfl : b = i := by omega
  exact ⟨s', hrun⟩

/-- C8, witness: profile 3, alpha 12, blind mode; flow 1 has sent 999 bytes at
t=0 and sends 1 byte at t=11 ns, so the raw score is 11/1000^12 = 1.1e-35,
exactly the threshold of bin 3. -/
theorem tie_goes_to_its_bin_witness :
    ∃ s', DoClassify exampleHost (seenOnePacket (Dbl.fin 12) 3 999) []
      { hash := 1, size := 1 } 11 = .ok (3, s') :=
  tie_goes_to_its_bin exampleHost (seenOnePacket (Dbl.fin 12) 3 999) _ []
    { hash := 1, size := 1 } 11 3 (Dbl.fin 1.1e-35) rfl rfl rfl
    (by simp [updatedStats, GetStatsForFlow, seenOnePacket, mapFind, touch])
    rfl
    (by
      simp [rawScore, updatedStats, GetStatsForFlow, seenOnePacket, mapFind, touch, rawPrio,
        exampleHost, powNatExponent, Dbl.div, Dbl.ofNat, Dbl.ofInt]
      norm_num)

/-- C9: for every valid profile 1..7, `MakePrioLimits` succeeds in both modes,
the non-blind threshold at index i equals the blind threshold at index 7 - i for
every i in 0..7, the non-blind ladder is the blind ladder reversed, and
reversing it again gives back the blind ladder. -/
theorem nonBlind_ladder_is_reversed (self : PbsPacketFilter)
    (hprofile : 1 ≤ self.m_profile ∧ self.m_profile ≤ 7) :
    ∃ sb sn, MakePrioLimits { self with m_nonBlind := false } = .ok sb ∧
      MakePrioLimits { self with m_nonBlind := true } = .ok sn ∧
      (∀ i, i < 8 → sn.m_prioLimits[i]? = sb.m_prioLimits[7 - i]?) ∧
      (∀ i, i < 8 → ∃ t, sn.m_prioLimits[i]? = some t) ∧
      sn.m_prioLimits = sb.m_prioLimits.reverse ∧
      sn.m_prioLimits.reverse = sb.m_prioLimits := by
  obtain ⟨limits, hp, hlen, _⟩ := profileLimits_valid self.m_profile hprofile.1 hprofile.2
  have hrev := fillPrioLimits_nonBlind_eq_reverse limits hlen
  have hlenb := fillPrioLimits_length false limits
  refine ⟨_, _, MakePrioLimits_of_profile { self with m_nonBlind := false } limits hp,
    MakePrioLimits_of_profile { self with m_nonBlind := true } limits hp, ?_, ?_, ?_, ?_⟩
  · intro i hi
    simp only [hrev]
    rw [List.getElem?_reverse (by omega), hlenb]
  · intro i hi
    simp only [hrev]
    exact ⟨_, List.getElem?_eq_getElem (by simp [hlenb]; omega)⟩
  · simp only [hrev]
  · simp only [hrev, List.reverse_reverse]

/-- C9, witness: profile 4. -/
theorem nonBlind_ladder_is_reversed_witness :
    ∃ sb sn,
      MakePrioLimits { PbsPacketFilter.create (Dbl.fin 10) 4 true false with m_nonBlind := false }
        = .ok sb ∧
      MakePrioLimits { PbsPacketFilter.create (Dbl.fin 10) 4 true false with m_nonBlind := true }
        = .ok sn ∧
      (∀ i, i < 8 → sn.m_prioLimits[i]? = sb.m_prioLimits[7 - i]?) ∧
      (∀ i, i < 8 → ∃ t, sn.m_prioLimits[i]? = some t) ∧
      sn.m_prioLimits = sb.m_prioLimits.reverse ∧
      sn.m_prioLimits.reverse = sb.m_prioLimits :=
  nonBlind_ladder_is_reversed (PbsPacketFilter.create (Dbl.fin 10) 4 true false)
    ⟨by decide, by decide⟩

/-- C10: `MakePrioLimits` ends in the fatal error exactly when the profile is 0
or at least 8; for every profile in 1..7 it succeeds, changes nothing but
`m_prioLimits`, and leaves eight finite thresholds there; and `DoClassify` with
PBS on and an invalid profile (0 in particular) ends in the fatal error instead
of returning a bin. -/
theorem invalid_profile_is_fatal (host : Host) (self : PbsPacketFilter)
    (apps : List (Option BulkSendApplication)) (item : QueueDiscItem) (now : Nat) :
    (MakePrioLimits self = .error Fault.fatalInvalidProfile ↔
      (self.m_profile = 0 ∨ 8 ≤ self.m_profile)) ∧
    ((1 ≤ self.m_profile ∧ self.m_profile ≤ 7) →
      ∃ ladder, MakePrioLimits self = .ok { self with m_prioLimits := ladder } ∧
        ladder.length = 8 ∧ ∀ i, i < 8 → ∃ q, ladder[i]? = some (Dbl.fin q)) ∧
    (self.m_usePbs = true → (self.m_profile = 0 ∨ 8 ≤ self.m_profile) →
      DoClassify host self apps item now = .error Fault.fatalInvalidProfile) := by
  refine ⟨?_, ?_, ?_⟩
  · rw [← profileLimits_eq_none_iff]
    unfold MakePrioLimits
    cases profileLimits self.m_profile <;> simp
  · intro hprofile
    obtain ⟨limits, hp, hlen, _⟩ := profileLimits_valid self.m_profile hprofile.1 hprofile.2
    refine ⟨_, MakePrioLimits_of_profile self limits hp, fillPrioLimits_length _ _, ?_⟩
    intro i hi
    obtain ⟨a0, a1, a2, a3, a4, a5, a6, a7, rfl⟩ := list_of_length_eight limits hlen
    cases self.m_nonBlind
    · rw [fillPrioLimits_blind]
      interval_cases i <;> exact ⟨_, rfl⟩
    · rw [fillPrioLimits_nonBlind]
      interval_cases i <;> exact ⟨_, rfl⟩
  · intro hon hbad
    exact DoClassify_invalid host self apps item now hon
      ((profileLimits_eq_none_iff self.m_profile).mpr hbad)

/-- C10, witness: profile 0 with PBS on; the first packet is not classified. -/
theorem invalid_profile_is_fatal_witness :
    DoClassify exampleHost (PbsPacketFilter.create (Dbl.fin 10) 0 true false) []
      { hash := 1, size := 100 } 0 = .error Fault.fatalInvalidProfile :=
  (invalid_profile_is_fatal exampleHost (PbsPacketFilter.create (Dbl.fin 10) 0 true false) []
    { hash := 1, size := 100 } 0).2.2 rfl (Or.inl rfl)

/-! ## the whole state after a successful call -/

theorem accounted_fields (self : PbsPacketFilter) (item : QueueDiscItem) (now : Nat) :
    (accounted self item now).m_alpha = self.m_alpha ∧
    (accounted self item now).m_profile = self.m_profile ∧
    (accounted self item now).m_usePbs = self.m_usePbs ∧
    (accounted self item now).m_nonBlind = self.m_nonBlind ∧
    (accounted self item now).m_totalBytes = self.m_totalBytes + item.size ∧
    (accounted self item now).m_loadAtTime = mapAdd self.m_loadAtTime now item.size := by
  unfold accounted GetStatsForFlow addLoad
  simp only []
  cases mapFind self.m_flowStats item.hash <;> exact ⟨rfl, rfl, rfl, rfl, rfl, rfl⟩

/-- Everything a successful call changes: the two load counters and the record
of the packet's flow; the four attributes stay. -/
theorem DoClassify_ok_state (host : Host) (self s' : PbsPacketFilter)
    (apps : List (Option BulkSendApplication)) (item : QueueDiscItem) (now b : Nat)
    (h : DoClassify host self apps item now = .ok (b, s')) :
    s'.m_alpha = self.m_alpha ∧ s'.m_profile = self.m_profile ∧
    s'.m_usePbs = self.m_usePbs ∧ s'.m_nonBlind = self.m_nonBlind ∧
    s'.m_totalBytes = self.m_totalBytes + item.size ∧
    s'.m_loadAtTime = mapAdd self.m_loadAtTime now item.size ∧
    s'.m_flowStats = mapSet (accounted self item now).m_flowStats item.hash
      { classifiedStats host self apps item now with
        prioHistory := mapAdd (classifiedStats host self apps item now).prioHistory b item.size,
        prioPacketHistory :=
          mapAdd (classifiedStats host self apps item now).prioPacketHistory b 1 } := by
  obtain ⟨a1, a2, a3, a4, a5, a6⟩ := accounted_fields self item now
  cases hon : self.m_usePbs with
  | false =>
    rw [DoClassify_disabled host self apps item now hon] at h
    simp only [finish, Except.ok.injEq, Prod.mk.injEq] at h
    obtain ⟨hb, hs⟩ := h
    have hb0 : b = 0 := by rw [← hb]; rfl
    subst hb0
    subst hs
    simp only [classifiedStats, hon]
    exact ⟨a1, a2, a3.trans hon, a4, a5, a6, rfl⟩
  | true =>
    cases hp : profileLimits self.m_profile with
    | none =>
      rw [DoClassify_invalid host self apps item now hon hp] at h
      cases h
    | some limits =>
      rw [DoClassify_enabled host self apps item now limits hon hp] at h
      cases hsel : selectBin (fillPrioLimits self.m_nonBlind limits)
          (rawScore host self apps item now) (scoredStats host self apps item now) with
      | error e =>
        rw [hsel] at h
        cases h
      | ok bin =>
        rw [hsel] at h
        simp only [finish, Except.ok.injEq, Prod.mk.injEq] at h
        obtain ⟨hb, hs⟩ := h
        have hbin : bin = b := by rw [← hb]; simp
        subst hbin
        subst hs
        simp only [classifiedStats, hon]
        refine ⟨a1, a2, a3.trans hon, a4, a5, a6, ?_⟩
        simp

theorem mapFind_after_call (host : Host) (self s' : PbsPacketFilter)
    (apps : List (Option BulkSendApplication)) (item : QueueDiscItem) (now b : Nat)
    (h : DoClassify host self apps item now = .ok (b, s')) :
    mapFind s'.m_flowStats item.hash = some
      { classifiedStats host self apps item now with
        prioHistory := mapAdd (classifiedStats host self apps item now).prioHistory b item.size,
        prioPacketHistory :=
          mapAdd (classifiedStats host self apps item now).prioPacketHistory b 1 } := by
  rw [(DoClassify_ok_state host self s' apps item now b h).2.2.2.2.2.2, mapFind_mapSet, if_pos rfl]

theorem mapFind_after_call_of_ne (host : Host) (self s' : PbsPacketFilter)
    (apps : List (Option BulkSendApplication)) (item : QueueDiscItem) (now b g : Nat)
    (h : DoClassify host self apps item now = .ok (b, s')) (hg : item.hash ≠ g) :
    mapFind s'.m_flowStats g = mapFind self.m_flowStats g := by
  rw [(DoClassify_ok_state host self s' apps item now b h).2.2.2.2.2.2, mapFind_mapSet, if_neg hg,
    mapFind_accounted_of_ne self item now g hg]

theorem updatedStats_eq (self : PbsPacketFilter) (item : QueueDiscItem) (now : Nat) :
    updatedStats self item now =
      touch ((mapFind self.m_flowStats item.hash).getD freshStats) item.size now := by
  unfold updatedStats
  rw [GetStatsForFlow_fst]

theorem touch_keeps (ref : FlowStats) (size now : Nat) :
    (touch ref size now).flowSize = ref.flowSize ∧
    (touch ref size now).rawPrioHistory = ref.rawPrioHistory ∧
    (touch ref size now).timeLastTxPacket = now ∧
    (touch ref size now).timeFirstTxPacket =
      (if ref.firstTx = true then now else ref.timeFirstTxPacket) ∧
    (touch ref size now).flowAge =
      (now : Int) - ((if ref.firstTx = true then now else ref.timeFirstTxPacket : Nat) : Int) := by
  unfold touch
  cases ref.firstTx <;> simp

/-! ## the flow-size resolver -/

theorem rawPrio_blind (host : Host) (alpha : Dbl) (apps : List (Option BulkSendApplication))
    (h : Nat) (ref : FlowStats) :
    rawPrio host false alpha apps h ref =
      (ref, Dbl.div (Dbl.ofInt ref.flowAge) (host.pow (Dbl.ofNat ref.txBytes) alpha)) := by
  simp [rawPrio]

theorem rawPrio_cached (host : Host) (alpha : Dbl) (apps : List (Option BulkSendApplication))
    (h : Nat) (ref : FlowStats) (hsize : ref.flowSize ≠ 0) :
    rawPrio host true alpha apps h ref =
      (ref, Dbl.div (Dbl.ofInt ref.flowAge)
        (host.pow (Dbl.ofNat (bytesRemaining ref.flowSize ref.txBytes)) alpha)) := by
  simp [rawPrio, hsize, bytesRemaining]

theorem rawPrio_resolved (host : Host) (alpha : Dbl) (apps : List (Option BulkSendApplication))
    (h : Nat) (ref : FlowStats) (hsize : ref.flowSize = 0) :
    rawPrio host true alpha apps h ref =
      ({ ref with flowSize := resolveFlowSize host h apps (ref.txBytes + 1) },
        Dbl.div (Dbl.ofInt ref.flowAge)
          (host.pow (Dbl.ofNat
            (bytesRemaining (resolveFlowSize host h apps (ref.txBytes + 1)) ref.txBytes)) alpha)) := by
  simp [rawPrio, hsize, bytesRemaining]

theorem resolveFlowSize_no_match (host : Host) (h d : Nat)
    (apps : List (Option BulkSendApplication))
    (hno : ∀ c ∈ apps, candidateMatches host h c = false) :
    resolveFlowSize host h apps d = d := by
  induction apps with
  | nil => rfl
  | cons c rest ih =>
    have hrest := ih (fun x hx => hno x (List.mem_cons_of_mem c hx))
    have hc := hno c (List.mem_cons_self c rest)
    cases c with
    | none => simpa [resolveFlowSize] using hrest
    | some app =>
      cases hs : app.socket with
      | none => simpa [resolveFlowSize, hs] using hrest
      | some source =>
        simp only [candidateMatches, hs, decide_eq_false_iff_not] at hc
        simpa [resolveFlowSize, hs, hc] using hrest

theorem resolveFlowSize_first_match (host : Host) (h d : Nat)
    (pre post : List (Option BulkSendApplication)) (app : BulkSendApplication)
    (hpre : ∀ c ∈ pre, candidateMatches host h c = false)
    (happ : candidateMatches host h (some app) = true) :
    resolveFlowSize host h (pre ++ some app :: post) d = app.maxBytes := by
  induction pre with
  | nil =>
    cases hs : app.socket with
    | none => simp [candidateMatches, hs] at happ
    | some source =>
      simp only [candidateMatches, hs, decide_eq_true_eq] at happ
      simp [resolveFlowSize, hs, happ]
  | cons c rest ih =>
    have hrest := ih (fun x hx => hpre x (List.mem_cons_of_mem c hx))
    have hc := hpre c (List.mem_cons_self c rest)
    cases c with
    | none => simpa [resolveFlowSize] using hrest
    | some a =>
      cases hs : a.socket with
      | none => simpa [resolveFlowSize, hs] using hrest
      | some source =>
        simp only [candidateMatches, hs, decide_eq_false_iff_not] at hc
        simpa [resolveFlowSize, hs, hc] using hrest

theorem resolveFlowSize_eq_zero (host : Host) (h d : Nat)
    (apps : List (Option BulkSendApplication)) (hd : d ≠ 0)
    (hz : resolveFlowSize host h apps d = 0) :
    ∃ app, some app ∈ apps ∧ candidateMatches host h (some app) = true ∧ app.maxBytes = 0 := by
  induction apps with
  | nil => exact absurd hz hd
  | cons c rest ih =>
    cases c with
    | none =>
      obtain ⟨app, hmem, hm, h0⟩ := ih (by simpa [resolveFlowSize] using hz)
      exact ⟨app, List.mem_cons_of_mem _ hmem, hm, h0⟩
    | some a =>
      cases hs : a.socket with
      | none =>
        obtain ⟨app, hmem, hm, h0⟩ := ih (by simpa [resolveFlowSize, hs] using hz)
        exact ⟨app, List.mem_cons_of_mem _ hmem, hm, h0⟩
      | some source =>
        by_cases hh : host.Hash32 (fiveTupleBuf source a.remote) = h
        · refine ⟨a, List.mem_cons_self _ _, by simp [candidateMatches, hs, hh], ?_⟩
          simpa [resolveFlowSize, hs, hh] using hz
        · obtain ⟨app, hmem, hm, h0⟩ := ih (by simpa [resolveFlowSize, hs, hh] using hz)
          exact ⟨app, List.mem_cons_of_mem _ hmem, hm, h0⟩

/-- The candidate list reaches the result of a call only through `rawPrio`. -/
theorem DoClassify_congr_apps (host : Host) (self : PbsPacketFilter)
    (apps1 apps2 : List (Option BulkSendApplication)) (item : QueueDiscItem) (now : Nat)
    (hraw : rawPrio host self.m_nonBlind self.m_alpha apps1 item.hash (updatedStats self item now) =
      rawPrio host self.m_nonBlind self.m_alpha apps2 item.hash (updatedStats self item now)) :
    DoClassify host self apps1 item now = DoClassify host self apps2 item now := by
  cases hon : self.m_usePbs with
  | false => rw [DoClassify_disabled host self apps1 item now hon,
      DoClassify_disabled host self apps2 item now hon]
  | true =>
    cases hp : profileLimits self.m_profile with
    | none => rw [DoClassify_invalid host self apps1 item now hon hp,
        DoClassify_invalid host self apps2 item now hon hp]
    | some limits =>
      rw [DoClassify_enabled host self apps1 item now limits hon hp,
        DoClassify_enabled host self apps2 item now limits hon hp]
      unfold rawScore scoredStats
      simp only [hraw]

theorem updatedStats_flowSize (self : PbsPacketFilter) (item : QueueDiscItem) (now : Nat) :
    (updatedStats self item now).flowSize =
      ((mapFind self.m_flowStats item.hash).getD freshStats).flowSize := by
  rw [updatedStats_eq]
  exact (touch_keeps _ _ _).1

/-- A call for a flow whose size is cached gives the same result for any two
candidate lists. -/
theorem DoClassify_cached_apps (host : Host) (self : PbsPacketFilter)
    (apps1 apps2 : List (Option BulkSendApplication)) (item : QueueDiscItem) (now : Nat)
    (st : FlowStats) (hfind : mapFind self.m_flowStats item.hash = some st)
    (hsize : st.flowSize ≠ 0) :
    DoClassify host self apps1 item now = DoClassify host self apps2 item now := by
  apply DoClassify_congr_apps
  have hu : (updatedStats self item now).flowSize ≠ 0 := by
    rw [updatedStats_flowSize, hfind]
    exact hsize
  cases self.m_nonBlind
  · rw [rawPrio_blind, rawPrio_blind]
  · rw [rawPrio_cached _ _ _ _ _ hu, rawPrio_cached _ _ _ _ _ hu]

theorem enumeratesCandidates_iff (self : PbsPacketFilter) (item : QueueDiscItem) :
    enumeratesCandidates self item = true ↔
      self.m_usePbs = true ∧ self.m_nonBlind = true ∧
        ((mapFind self.m_flowStats item.hash).getD freshStats).flowSize = 0 := by
  unfold enumeratesCandidates
  rw [GetStatsForFlow_fst]
  simp [and_assoc]

/-- The flow size a call stores: resolved when the call enumerates the
candidates, the stored one otherwise. -/
theorem classifiedStats_flowSize (host : Host) (self : PbsPacketFilter)
    (apps : List (Option BulkSendApplication)) (item : QueueDiscItem) (now : Nat) :
    (classifiedStats host self apps item now).flowSize =
      if enumeratesCandidates self item = true then
        resolveFlowSize host item.hash apps ((updatedStats self item now).txBytes + 1)
      else ((mapFind self.m_flowStats item.hash).getD freshStats).flowSize := by
  have hu := updatedStats_flowSize self item now
  by_cases hen : enumeratesCandidates self item = true
  · rw [if_pos hen]
    obtain ⟨hon, hnb, hz⟩ := (enumeratesCandidates_iff self item).mp hen
    simp only [classifiedStats, hon, if_true, scoredStats, hnb]
    rw [rawPrio_resolved _ _ _ _ _ (hu.trans hz)]
  · rw [if_neg hen]
    rw [enumeratesCandidates_iff] at hen
    cases hon : self.m_usePbs with
    | false => simp only [classifiedStats, hon, Bool.false_eq_true, if_false]; exact hu
    | true =>
      simp only [classifiedStats, hon, if_true, scoredStats]
      cases hnb : self.m_nonBlind with
      | false => rw [rawPrio_blind]; exact hu
      | true =>
        have hne : (updatedStats self item now).flowSize ≠ 0 := by
          rw [hu]
          intro hz
          exact hen ⟨hon, hnb, hz⟩
        rw [rawPrio_cached _ _ _ _ _ hne]
        exact hu

theorem flowSize_kept_by_call (host : Host) (self s' : PbsPacketFilter)
    (apps : List (Option BulkSendApplication)) (item : QueueDiscItem) (now b f : Nat)
    (st : FlowStats) (h : DoClassify host self apps item now = .ok (b, s'))
    (hfind : mapFind self.m_flowStats f = some st) (hsize : st.flowSize ≠ 0) :
    ∃ st', mapFind s'.m_flowStats f = some st' ∧ st'.flowSize = st.flowSize := by
  by_cases hf : item.hash = f
  · subst hf
    refine ⟨_, mapFind_after_call host self s' apps item now b h, ?_⟩
    simp only []
    rw [classifiedStats_flowSize, if_neg, hfind]
    · rfl
    · rw [enumeratesCandidates_iff, hfind]
      exact fun hcon => hsize hcon.2.2
  · exact ⟨st, by rw [mapFind_after_call_of_ne host self s' apps item now b f h hf, hfind], rfl⟩

theorem flowSize_kept_by_calls (host : Host) (f : Nat) (calls : List Call) :
    ∀ (s s' : PbsPacketFilter) (st : FlowStats), runCalls host s calls = .ok s' →
      mapFind s.m_flowStats f = some st → st.flowSize ≠ 0 →
      ∃ st', mapFind s'.m_flowStats f = some st' ∧ st'.flowSize = st.flowSize := by
  induction calls with
  | nil =>
    intro s s' st hrun hfind _
    simp only [runCalls, Except.ok.injEq] at hrun
    subst hrun
    exact ⟨st, hfind, rfl⟩
  | cons c cs ih =>
    intro s s' st hrun hfind hsize
    simp only [runCalls] at hrun
    cases hc : DoClassify host s c.apps c.item c.now with
    | error e => rw [hc] at hrun; cases hrun
    | ok r =>
      rw [hc] at hrun
      obtain ⟨b, s1⟩ := r
      obtain ⟨st1, hfind1, hsize1⟩ :=
        flowSize_kept_by_call host s s1 c.apps c.item c.now b f st hc hfind hsize
      obtain ⟨st', hfind', hsize'⟩ := ih s1 s' st1 hrun hfind1 (by rw [hsize1]; exact hsize)
      exact ⟨st', hfind', hsize'.trans hsize1⟩

/-! ## claims C11 to C13: the resolver -/

/-- C11: in non-blind mode, for a flow whose stored `flowSize` is non-zero,
`DoClassify` does not run the loop over the candidates; the result (returned bin
and filter, or fault) is the same for any two candidate lists; the raw score is
computed from `bytes_remaining = flowSize - txBytes` with the stored `flowSize`;
and a call that returns leaves `flowSize` as it was. -/
theorem resolver_idempotence (host : Host) (self : PbsPacketFilter)
    (apps1 apps2 : List (Option BulkSendApplication)) (item : QueueDiscItem) (now : Nat)
    (st : FlowStats) (hnb : self.m_nonBlind = true)
    (hfind : mapFind self.m_flowStats item.hash = some st) (hsize : st.flowSize ≠ 0) :
    enumeratesCandidates self item = false ∧
    DoClassify host self apps1 item now = DoClassify host self apps2 item now ∧
    rawScore host self apps1 item now =
      Dbl.div (Dbl.ofInt (updatedStats self item now).flowAge)
        (host.pow (Dbl.ofNat (bytesRemaining st.flowSize (updatedStats self item now).txBytes))
          self.m_alpha) ∧
    ∀ b s', DoClassify host self apps1 item now = .ok (b, s') →
      ∃ st', mapFind s'.m_flowStats item.hash = some st' ∧ st'.flowSize = st.flowSize := by
  have hu : (updatedStats self item now).flowSize = st.flowSize := by
    rw [updatedStats_flowSize, hfind]
    rfl
  refine ⟨?_, DoClassify_cached_apps host self apps1 apps2 item now st hfind hsize, ?_, ?_⟩
  · cases hen : enumeratesCandidates self item with
    | false => rfl
    | true =>
      have hz := ((enumeratesCandidates_iff self item).mp hen).2.2
      rw [hfind] at hz
      exact absurd hz hsize
  · unfold rawScore
    rw [hnb, rawPrio_cached _ _ _ _ _ (by rw [hu]; exact hsize), hu]
  · intro b s' hcall
    exact flowSize_kept_by_call host self s' apps1 item now b item.hash st hcall hfind hsize

/-- C11, witness: profile 4, alpha 1, non-blind; flow 6 has sent 100 bytes and
has 5000 cached as its size; an empty candidate list and a list holding a
matching candidate that advertises 7 give the same result. -/
theorem resolver_idempotence_witness :
    DoClassify exampleHost (seenOnePacketNonBlind (Dbl.fin 1) 4 100 5000) []
        { hash := 6, size := 100 } 0 =
      DoClassify exampleHost (seenOnePacketNonBlind (Dbl.fin 1) 4 100 5000)
        [some (exampleApp 7)] { hash := 6, size := 100 } 0 :=
  (resolver_idempotence exampleHost (seenOnePacketNonBlind (Dbl.fin 1) 4 100 5000) []
    [some (exampleApp 7)] { hash := 6, size := 100 } 0 _ rfl rfl (by decide)).2.1

/-- C12, as stated, fails: profile 4, alpha 1, non-blind, PBS on. The first
packet of flow 6 (100 bytes, t=0) is classified while the node holds a matching
application that advertises `MaxBytes` 0, so 0 is stored as `flowSize`. The
second call for the flow runs the loop over the candidates again, and what it
stores depends on the candidate list: 201 for the empty list, 5000 for a list
holding a matching application that advertises 5000. -/
theorem resolution_repeats_after_zero :
    DoClassify exampleHost (PbsPacketFilter.create (Dbl.fin 1) 4 true true)
        [some (exampleApp 0)] { hash := 6, size := 100 } 0 =
      .ok (0, seenOnePacketNonBlind (Dbl.fin 1) 4 100 0) ∧
    enumeratesCandidates (seenOnePacketNonBlind (Dbl.fin 1) 4 100 0)
      { hash := 6, size := 100 } = true ∧
    DoClassify exampleHost (seenOnePacketNonBlind (Dbl.fin 1) 4 100 0) []
        { hash := 6, size := 100 } 0 ≠
      DoClassify exampleHost (seenOnePacketNonBlind (Dbl.fin 1) 4 100 0)
        [some (exampleApp 5000)] { hash := 6, size := 100 } 0 := by
  refine ⟨?_, ?_, ?_⟩
  · rw [DoClassify_young exampleHost (PbsPacketFilter.create (Dbl.fin 1) 4 true true)
      [some (exampleApp 0)] { hash := 6, size := 100 } 0 _ rfl rfl (by decide)]
    simp [seenOnePacketNonBlind, GetStatsForFlow, finish, accounted, mapFind, mapSet, scoredStats,
      rawPrio, updatedStats, touch, PbsPacketFilter.create, addLoad, freshStats, resolveFlowSize,
      exampleApp, exampleHost, fiveTupleBuf, mapAdd, profileLimits, powNatExponent, Dbl.div,
      Dbl.ofNat, Dbl.ofInt]
  · simp [enumeratesCandidates, GetStatsForFlow, seenOnePacketNonBlind, mapFind]
  · intro heq
    have ha := DoClassify_young exampleHost (seenOnePacketNonBlind (Dbl.fin 1) 4 100 0) []
      { hash := 6, size := 100 } 0 _ rfl rfl
      (by simp [updatedStats, GetStatsForFlow, seenOnePacketNonBlind, mapFind, touch])
    have hb := heq ▸ ha
    have fa := mapFind_after_call exampleHost _ _ _ _ _ _ ha
    have fb := mapFind_after_call exampleHost _ _ _ _ _ _ hb
    rw [fa] at fb
    have hsize := congrArg FlowStats.flowSize (Option.some.inj fb)
    simp only [classifiedStats_flowSize] at hsize
    simp [enumeratesCandidates, GetStatsForFlow, seenOnePacketNonBlind, mapFind, updatedStats,
      touch, resolveFlowSize, exampleApp, exampleHost, fiveTupleBuf] at hsize

theorem runCalls_single (host : Host) (s s' : PbsPacketFilter)
    (apps : List (Option BulkSendApplication)) (item : QueueDiscItem) (now b : Nat)
    (h : DoClassify host s apps item now = .ok (b, s')) :
    runCalls host s [{ apps := apps, item := item, now := now }] = .ok s' := by
  simp only [runCalls, h]

/-- C12, amended: a call runs the loop over the candidates only when it finds
the flow's `flowSize` equal to 0, and a call that enumerated and still stored 0
had a matching candidate advertising 0. Once a non-zero `flowSize` is stored for
a flow, then after any sequence of successful calls (for any flows, with any
candidate lists) the flow still has that value, a call for the flow does not
enumerate, and its result is the same for every candidate list. -/
theorem resolution_cached_once_nonzero (host : Host) (s s' : PbsPacketFilter) (f : Nat)
    (st : FlowStats) (calls : List Call)
    (hfind : mapFind s.m_flowStats f = some st) (hsize : st.flowSize ≠ 0)
    (hrun : runCalls host s calls = .ok s') :
    (∃ st', mapFind s'.m_flowStats f = some st' ∧ st'.flowSize = st.flowSize) ∧
    (∀ size, enumeratesCandidates s' { hash := f, size := size } = false) ∧
    (∀ apps1 apps2 size now,
      DoClassify host s' apps1 { hash := f, size := size } now =
        DoClassify host s' apps2 { hash := f, size := size } now) ∧
    (∀ (t t' : PbsPacketFilter) apps item now b st', DoClassify host t apps item now = .ok (b, t') →
      mapFind t'.m_flowStats item.hash = some st' → st'.flowSize = 0 →
      enumeratesCandidates t item = true →
      ∃ app, some app ∈ apps ∧ candidateMatches host item.hash (some app) = true ∧
        app.maxBytes = 0) := by
  obtain ⟨st', hfind', hsize'⟩ := flowSize_kept_by_calls host f calls s s' st hrun hfind hsize
  have hne : st'.flowSize ≠ 0 := by rw [hsize']; exact hsize
  refine ⟨⟨st', hfind', hsize'⟩, ?_, ?_, ?_⟩
  · intro size
    cases hen : enumeratesCandidates s' { hash := f, size := size } with
    | false => rfl
    | true =>
      have hz := ((enumeratesCandidates_iff s' _).mp hen).2.2
      simp only [hfind', Option.getD_some] at hz
      exact absurd hz hne
  · intro apps1 apps2 size now
    exact DoClassify_cached_apps host s' apps1 apps2 { hash := f, size := size } now st' hfind' hne
  · intro t t' apps item now b st1 hcall hfind1 hzero hen
    rw [mapFind_after_call host t t' apps item now b hcall] at hfind1
    simp only [Option.some.injEq] at hfind1
    subst hfind1
    simp only [classifiedStats_flowSize, hen, if_true] at hzero
    exact resolveFlowSize_eq_zero host item.hash _ apps (Nat.succ_ne_zero _) hzero

/-- C12, witness of the amended statement: flow 6 has 5000 cached; after one
more call for it (100 bytes at t=0, empty candidate list) the value is still
5000. -/
theorem resolution_cached_once_nonzero_witness :
    ∃ s' st', runCalls exampleHost (seenOnePacketNonBlind (Dbl.fin 1) 4 100 5000)
        [{ apps := [], item := { hash := 6, size := 100 }, now := 0 }] = .ok s' ∧
      mapFind s'.m_flowStats 6 = some st' ∧ st'.flowSize = 5000 := by
  have hcall := DoClassify_young exampleHost (seenOnePacketNonBlind (Dbl.fin 1) 4 100 5000) []
    { hash := 6, size := 100 } 0 _ rfl rfl
    (by simp [updatedStats, GetStatsForFlow, seenOnePacketNonBlind, mapFind, touch])
  have hrun := runCalls_single exampleHost _ _ [] { hash := 6, size := 100 } 0 0 hcall
  obtain ⟨st', h1, h2⟩ := (resolution_cached_once_nonzero exampleHost
    (seenOnePacketNonBlind (Dbl.fin 1) 4 100 5000) _ 6 _ _ rfl (by decide) hrun).1
  exact ⟨_, st', hrun, h1, h2⟩

/-- C13: in non-blind mode with PBS on, when the flow's `flowSize` is 0 and the
candidate list is `pre ++ app :: post` where `app` is usable and matches the
hash of the item and no entry of `pre` does (each is not a bulk-send
application, has no socket, or hashes differently), the size the call computes
for the flow is `MaxBytes` of `app`, whatever `pre` and `post` hold besides;
every call that returns has stored it as `flowSize`, and for a valid profile a
call that leaves the flow with age 0 does return. -/
theorem resolver_first_match (host : Host) (self : PbsPacketFilter)
    (pre post : List (Option BulkSendApplication)) (app : BulkSendApplication)
    (item : QueueDiscItem) (now : Nat)
    (hon : self.m_usePbs = true) (hnb : self.m_nonBlind = true)
    (hzero : ((mapFind self.m_flowStats item.hash).getD freshStats).flowSize = 0)
    (hpre : ∀ c ∈ pre, candidateMatches host item.hash c = false)
    (happ : candidateMatches host item.hash (some app) = true) :
    (classifiedStats host self (pre ++ some app :: post) item now).flowSize = app.maxBytes ∧
    (∀ b s', DoClassify host self (pre ++ some app :: post) item now = .ok (b, s') →
      ∃ st', mapFind s'.m_flowStats item.hash = some st' ∧ st'.flowSize = app.maxBytes) ∧
    ((1 ≤ self.m_profile ∧ self.m_profile ≤ 7) → (updatedStats self item now).flowAge = 0 →
      ∃ s' st', DoClassify host self (pre ++ some app :: post) item now = .ok (0, s') ∧
        mapFind s'.m_flowStats item.hash = some st' ∧ st'.flowSize = app.maxBytes) := by
  have hen : enumeratesCandidates self item = true :=
    (enumeratesCandidates_iff self item).mpr ⟨hon, hnb, hzero⟩
  have hsize : (classifiedStats host self (pre ++ some app :: post) item now).flowSize =
      app.maxBytes := by
    rw [classifiedStats_flowSize, if_pos hen,
      resolveFlowSize_first_match host item.hash _ pre post app hpre happ]
  refine ⟨hsize, ?_, ?_⟩
  · intro b s' hcall
    exact ⟨_, mapFind_after_call host self s' _ item now b hcall, hsize⟩
  · intro hprofile hage
    obtain ⟨limits, hp, _, _⟩ := profileLimits_valid self.m_profile hprofile.1 hprofile.2
    have hcall := DoClassify_young host self (pre ++ some app :: post) item now limits hon hp hage
    exact ⟨_, _, hcall, mapFind_after_call host self _ _ item now 0 hcall, hsize⟩

/-- C13, witness: a fresh non-blind filter, profile 4; the candidates are a
non-bulk-send application, a bulk-send application without socket, the matching
application advertising 5000 and another matching one advertising 9; the first
packet of flow 6 is classified and 5000 is stored. -/
theorem resolver_first_match_witness :
    ∃ s' st', DoClassify exampleHost (PbsPacketFilter.create (Dbl.fin 1) 4 true true)
        ([none, some { socket := none, remote := { ipv4 := 0, port := 0 }, maxBytes := 3 }] ++
          some (exampleApp 5000) :: [some (exampleApp 9)])
        { hash := 6, size := 100 } 0 = .ok (0, s') ∧
      mapFind s'.m_flowStats 6 = some st' ∧ st'.flowSize = 5000 :=
  (resolver_first_match exampleHost (PbsPacketFilter.create (Dbl.fin 1) 4 true true)
    [none, some { socket := none, remote := { ipv4 := 0, port := 0 }, maxBytes := 3 }]
    [some (exampleApp 9)] (exampleApp 5000) { hash := 6, size := 100 } 0 rfl rfl rfl
    (by simp [candidateMatches]) (by simp [candidateMatches, exampleApp, exampleHost, fiveTupleBuf])).2.2
    ⟨by decide, by decide⟩ (by decide)

/-! ## the stored record, field by field -/

theorem classifiedStats_shape (host : Host) (self : PbsPacketFilter)
    (apps : List (Option BulkSendApplication)) (item : QueueDiscItem) (now : Nat) :
    classifiedStats host self apps item now =
      { updatedStats self item now with
        flowSize := (classifiedStats host self apps item now).flowSize,
        rawPrioHistory := (classifiedStats host self apps item now).rawPrioHistory } := by
  cases hon : self.m_usePbs with
  | false => simp only [classifiedStats, hon, Bool.false_eq_true, if_false]
  | true =>
    simp only [classifiedStats, hon, if_true, scoredStats]
    rw [rawPrio_fst]

theorem classifiedStats_rawPrioHistory (host : Host) (self : PbsPacketFilter)
    (apps : List (Option BulkSendApplication)) (item : QueueDiscItem) (now : Nat) :
    (classifiedStats host self apps item now).rawPrioHistory =
      if self.m_usePbs = true then
        ((mapFind self.m_flowStats item.hash).getD freshStats).rawPrioHistory ++
          [(rawScore host self apps item now, (updatedStats self item now).txBytes,
            (updatedStats self item now).flowAge)]
      else ((mapFind self.m_flowStats item.hash).getD freshStats).rawPrioHistory := by
  have hr : (updatedStats self item now).rawPrioHistory =
      ((mapFind self.m_flowStats item.hash).getD freshStats).rawPrioHistory := by
    rw [updatedStats_eq]
    exact (touch_keeps _ _ _).2.1
  cases hon : self.m_usePbs with
  | false => simp only [classifiedStats, hon, Bool.false_eq_true, if_false]; exact hr
  | true =>
    simp only [classifiedStats, hon, if_true, scoredStats, rawScore]
    rw [rawPrio_fst]
    simp only [hr]

/-- The record a successful call stores for the packet's flow, in terms of the
record the flow had (the fresh record when it had none). -/
theorem stored_record (host : Host) (self s' : PbsPacketFilter)
    (apps : List (Option BulkSendApplication)) (item : QueueDiscItem) (now b : Nat)
    (h : DoClassify host self apps item now = .ok (b, s')) :
    ∃ st', mapFind s'.m_flowStats item.hash = some st' ∧
      st'.txBytes = ((mapFind self.m_flowStats item.hash).getD freshStats).txBytes + item.size ∧
      st'.txPackets = ((mapFind self.m_flowStats item.hash).getD freshStats).txPackets + 1 ∧
      st'.timeLastTxPacket = now ∧ st'.firstTx = false ∧
      st'.timeFirstTxPacket =
        (if ((mapFind self.m_flowStats item.hash).getD freshStats).firstTx = true then now
          else ((mapFind self.m_flowStats item.hash).getD freshStats).timeFirstTxPacket) ∧
      st'.flowAge = (now : Int) - (st'.timeFirstTxPacket : Int) ∧
      st'.rawPrioHistory = (classifiedStats host self apps item now).rawPrioHistory ∧
      st'.txBytes = (updatedStats self item now).txBytes ∧
      st'.flowAge = (updatedStats self item now).flowAge := by
  refine ⟨_, mapFind_after_call host self s' apps item now b h, ?_⟩
  obtain ⟨t1, t2, _, _⟩ :=
    touch_fields ((mapFind self.m_flowStats item.hash).getD freshStats) item.size now
  obtain ⟨_, _, k3, k4, k5⟩ :=
    touch_keeps ((mapFind self.m_flowStats item.hash).getD freshStats) item.size now
  have hf := touch_firstTx ((mapFind self.m_flowStats item.hash).getD freshStats) item.size now
  simp only []
  rw [classifiedStats_shape]
  simp only []
  rw [updatedStats_eq]
  refine ⟨t1, t2, k3, hf, k4, by rw [k5, k4], ?_, ?_, ?_⟩ <;> trivial

theorem reachable_firstTx (host : Host) (s : PbsPacketFilter) (hs : Reachable host s) :
    ∀ f st, mapFind s.m_flowStats f = some st → st.firstTx = false := by
  induction hs with
  | create alpha profile usePbs nonBlind =>
    intro f st hf
    simp [PbsPacketFilter.create, mapFind] at hf
  | step apps item now bin _ hcall ih =>
    intro f st hf
    by_cases hfe : item.hash = f
    · subst hfe
      obtain ⟨st', hfind, _, _, _, hft, _⟩ := stored_record host _ _ apps item now bin hcall
      rw [hfind] at hf
      cases hf
      exact hft
    · rw [mapFind_after_call_of_ne host _ _ apps item now bin f hcall hfe] at hf
      exact ih f st hf

/-! ## claims C14 to C16: counters, load, raw history -/

theorem timeFirst_kept_by_call (host : Host) (self s' : PbsPacketFilter)
    (apps : List (Option BulkSendApplication)) (item : QueueDiscItem) (now b f : Nat)
    (st : FlowStats) (h : DoClassify host self apps item now = .ok (b, s'))
    (hfind : mapFind self.m_flowStats f = some st) (hft : st.firstTx = false) :
    ∃ st', mapFind s'.m_flowStats f = some st' ∧ st'.firstTx = false ∧
      st'.timeFirstTxPacket = st.timeFirstTxPacket := by
  by_cases hf : item.hash = f
  · subst hf
    obtain ⟨st', hfind', _, _, _, hft', htf, _⟩ := stored_record host self s' apps item now b h
    rw [hfind] at htf
    simp only [Option.getD_some, hft, Bool.false_eq_true, if_false] at htf
    exact ⟨st', hfind', hft', htf⟩
  · exact ⟨st, by rw [mapFind_after_call_of_ne host self s' apps item now b f h hf, hfind], hft, rfl⟩

theorem timeFirst_kept_by_calls (host : Host) (f : Nat) (calls : List Call) :
    ∀ (s s' : PbsPacketFilter) (st : FlowStats), runCalls host s calls = .ok s' →
      mapFind s.m_flowStats f = some st → st.firstTx = false →
      ∃ st', mapFind s'.m_flowStats f = some st' ∧
        st'.timeFirstTxPacket = st.timeFirstTxPacket := by
  induction calls with
  | nil =>
    intro s s' st hrun hfind _
    simp only [runCalls, Except.ok.injEq] at hrun
    subst hrun
    exact ⟨st, hfind, rfl⟩
  | cons c cs ih =>
    intro s s' st hrun hfind hft
    simp only [runCalls] at hrun
    cases hc : DoClassify host s c.apps c.item c.now with
    | error e => rw [hc] at hrun; cases hrun
    | ok r =>
      rw [hc] at hrun
      obtain ⟨b, s1⟩ := r
      obtain ⟨st1, hfind1, hft1, htf1⟩ :=
        timeFirst_kept_by_call host s s1 c.apps c.item c.now b f st hc hfind hft
      obtain ⟨st', hfind', htf'⟩ := ih s1 s' st1 hrun hfind1 hft1
      exact ⟨st', hfind', htf'.trans htf1⟩

/-- C14: for a reachable state and a successful `DoClassify (flow, size, now)`,
the flow's record afterwards has `txBytes` and `txPackets` increased by `size`
and 1 (from 0 for a flow not yet stored), `timeLastTxPacket = now`,
`firstTx = false`, `timeFirstTxPacket = now` for a flow not yet stored and the
stored value otherwise, and `flowAge = now - timeFirstTxPacket`; and after any
further sequence of successful calls `timeFirstTxPacket` is still that value. -/
theorem counter_update (host : Host) (s s' : PbsPacketFilter)
    (apps : List (Option BulkSendApplication)) (item : QueueDiscItem) (now b : Nat)
    (hs : Reachable host s) (hcall : DoClassify host s apps item now = .ok (b, s')) :
    ∃ st', mapFind s'.m_flowStats item.hash = some st' ∧
      st'.txBytes = ((mapFind s.m_flowStats item.hash).map FlowStats.txBytes).getD 0 + item.size ∧
      st'.txPackets = ((mapFind s.m_flowStats item.hash).map FlowStats.txPackets).getD 0 + 1 ∧
      st'.timeLastTxPacket = now ∧ st'.firstTx = false ∧
      st'.timeFirstTxPacket =
        ((mapFind s.m_flowStats item.hash).map FlowStats.timeFirstTxPacket).getD now ∧
      st'.flowAge = (now : Int) - (st'.timeFirstTxPacket : Int) ∧
      ∀ calls s'', runCalls host s' calls = .ok s'' →
        ∃ st'', mapFind s''.m_flowStats item.hash = some st'' ∧
          st''.timeFirstTxPacket = st'.timeFirstTxPacket := by
  obtain ⟨st', hfind, h1, h2, h3, h4, h5, h6, _⟩ := stored_record host s s' apps item now b hcall
  refine ⟨st', hfind, ?_, ?_, h3, h4, ?_, h6, ?_⟩
  · rw [h1]
    cases mapFind s.m_flowStats item.hash <;> rfl
  · rw [h2]
    cases mapFind s.m_flowStats item.hash <;> rfl
  · rw [h5]
    cases hold : mapFind s.m_flowStats item.hash with
    | none => rfl
    | some st =>
      simp only [Option.getD_some, Option.map_some', reachable_firstTx host s hs item.hash st hold,
        Bool.false_eq_true, if_false]
  · intro calls s'' hrun
    exact timeFirst_kept_by_calls host item.hash calls s' s'' st' hrun hfind h4

/-- C14, witness: the first packet of flow 1 (100 bytes at t=5) on a fresh
filter with PBS off. -/
theorem counter_update_witness :
    ∃ st', mapFind (finish (accounted (PbsPacketFilter.create (Dbl.fin 1) 4 false false)
          { hash := 1, size := 100 } 5) 1
          (updatedStats (PbsPacketFilter.create (Dbl.fin 1) 4 false false)
            { hash := 1, size := 100 } 5) 100 0).2.m_flowStats 1 = some st' ∧
      st'.txBytes = 100 ∧ st'.txPackets = 1 ∧ st'.timeLastTxPacket = 5 ∧ st'.firstTx = false ∧
      st'.timeFirstTxPacket = 5 ∧ st'.flowAge = 0 := by
  obtain ⟨st', h0, h1, h2, h3, h4, h5, h6, _⟩ :=
    counter_update exampleHost (PbsPacketFilter.create (Dbl.fin 1) 4 false false) _ []
      { hash := 1, size := 100 } 5 0 (Reachable.create (Dbl.fin 1) 4 false false)
      (DoClassify_disabled exampleHost (PbsPacketFilter.create (Dbl.fin 1) 4 false false) []
        { hash := 1, size := 100 } 5 rfl)
  refine ⟨st', h0, h1, h2, h3, h4, h5, ?_⟩
  rw [h6, h5]
  rfl

/-- C15: a successful `DoClassify` of a packet of size `size` at time `now`
adds exactly `size` to the total-bytes counter and to the load bucket of `now`
(taken as 0 when absent) and leaves every other bucket as it was; and in every
reachable state the buckets sum to `GetTotalBytes`. -/
theorem load_accounting (host : Host) (s : PbsPacketFilter) :
    (∀ apps item now b s', DoClassify host s apps item now = .ok (b, s') →
      GetTotalBytes s' = GetTotalBytes s + item.size ∧
      mapFind s'.m_loadAtTime now = some ((mapFind s.m_loadAtTime now).getD 0 + item.size) ∧
      (∀ t, t ≠ now → mapFind s'.m_loadAtTime t = mapFind s.m_loadAtTime t) ∧
      mapSum s'.m_loadAtTime = mapSum s.m_loadAtTime + item.size) ∧
    (Reachable host s → mapSum s.m_loadAtTime = GetTotalBytes s) := by
  have hstep : ∀ (t : PbsPacketFilter) apps item now b t',
      DoClassify host t apps item now = .ok (b, t') →
      GetTotalBytes t' = GetTotalBytes t + item.size ∧
      mapFind t'.m_loadAtTime now = some ((mapFind t.m_loadAtTime now).getD 0 + item.size) ∧
      (∀ u, u ≠ now → mapFind t'.m_loadAtTime u = mapFind t.m_loadAtTime u) ∧
      mapSum t'.m_loadAtTime = mapSum t.m_loadAtTime + item.size := by
    intro t apps item now b t' hcall
    obtain ⟨_, _, _, _, htot, hload, _⟩ := DoClassify_ok_state host t t' apps item now b hcall
    refine ⟨htot, ?_, ?_, ?_⟩
    · rw [hload, mapFind_mapAdd]
    · intro u hu
      rw [hload, mapFind_mapAdd_of_ne _ now u _ (Ne.symm hu)]
    · rw [hload, mapSum_mapAdd]
  refine ⟨hstep s, ?_⟩
  intro hs
  induction hs with
  | create alpha profile usePbs nonBlind => rfl
  | step apps item now bin _ hcall ih =>
    obtain ⟨htot, _, _, hsum⟩ := hstep _ apps item now bin _ hcall
    rw [hsum, htot, ih]

/-- C15, witness: after flow 1 sends 100 bytes at t=5 to a fresh filter with PBS
off, the total is 100 and the buckets sum to it. -/
theorem load_accounting_witness :
    GetTotalBytes (finish (accounted (PbsPacketFilter.create (Dbl.fin 1) 4 false false)
          { hash := 1, size := 100 } 5) 1
          (updatedStats (PbsPacketFilter.create (Dbl.fin 1) 4 false false)
            { hash := 1, size := 100 } 5) 100 0).2 = 100 ∧
      mapSum (finish (accounted (PbsPacketFilter.create (Dbl.fin 1) 4 false false)
          { hash := 1, size := 100 } 5) 1
          (updatedStats (PbsPacketFilter.create (Dbl.fin 1) 4 false false)
            { hash := 1, size := 100 } 5) 100 0).2.m_loadAtTime = 100 := by
  have hcall := DoClassify_disabled exampleHost (PbsPacketFilter.create (Dbl.fin 1) 4 false false)
    [] { hash := 1, size := 100 } 5 rfl
  have htot := ((load_accounting exampleHost (PbsPacketFilter.create (Dbl.fin 1) 4 false false)).1
    [] { hash := 1, size := 100 } 5 0 _ hcall).1
  have hsum := (load_accounting exampleHost _).2
    (Reachable.step [] { hash := 1, size := 100 } 5 0
      (Reachable.create (Dbl.fin 1) 4 false false) hcall)
  exact ⟨htot, hsum.trans htot⟩

/-- C16: with PBS on, a successful `DoClassify` appends exactly one entry to the
raw history of the packet's flow and keeps the earlier entries in place; the
entry is the raw score with the flow's updated `txBytes` and updated `flowAge`.
For a valid profile the first packet of a flow is classified and its history is
that single entry. In a reachable state with PBS on, the raw history of every
flow has as many entries as the flow has packets. -/
theorem raw_history_append (host : Host) (s : PbsPacketFilter) (hon : s.m_usePbs = true) :
    (∀ apps item now b s', DoClassify host s apps item now = .ok (b, s') →
      ∃ st', mapFind s'.m_flowStats item.hash = some st' ∧
        st'.rawPrioHistory =
          ((mapFind s.m_flowStats item.hash).map FlowStats.rawPrioHistory).getD [] ++
            [(rawScore host s apps item now, st'.txBytes, st'.flowAge)] ∧
        st'.txBytes =
          ((mapFind s.m_flowStats item.hash).map FlowStats.txBytes).getD 0 + item.size ∧
        st'.flowAge = (now : Int) - (st'.timeFirstTxPacket : Int)) ∧
    (∀ apps item now, (1 ≤ s.m_profile ∧ s.m_profile ≤ 7) →
      mapFind s.m_flowStats item.hash = none →
      ∃ s' st', DoClassify host s apps item now = .ok (0, s') ∧
        mapFind s'.m_flowStats item.hash = some st' ∧
        st'.rawPrioHistory = [(rawScore host s apps item now, item.size, 0)]) ∧
    (Reachable host s → ∀ f st, mapFind s.m_flowStats f = some st →
      st.rawPrioHistory.length = st.txPackets) := by
  have hstep : ∀ (t : PbsPacketFilter) apps item now b t', t.m_usePbs = true →
      DoClassify host t apps item now = .ok (b, t') →
      ∃ st', mapFind t'.m_flowStats item.hash = some st' ∧
        st'.rawPrioHistory =
          ((mapFind t.m_flowStats item.hash).getD freshStats).rawPrioHistory ++
            [(rawScore host t apps item now, st'.txBytes, st'.flowAge)] ∧
        st'.txBytes = ((mapFind t.m_flowStats item.hash).getD freshStats).txBytes + item.size ∧
        st'.txPackets = ((mapFind t.m_flowStats item.hash).getD freshStats).txPackets + 1 ∧
        st'.flowAge = (now : Int) - (st'.timeFirstTxPacket : Int) := by
    intro t apps item now b t' ht hcall
    obtain ⟨st', hfind, h1, h2, _, _, _, h6, h7, h8, h9⟩ :=
      stored_record host t t' apps item now b hcall
    refine ⟨st', hfind, ?_, h1, h2, h6⟩
    rw [h7, classifiedStats_rawPrioHistory, if_pos ht, h8, h9]
  refine ⟨?_, ?_, ?_⟩
  · intro apps item now b s' hcall
    obtain ⟨st', hfind, hraw, htx, _, hage⟩ := hstep s apps item now b s' hon hcall
    refine ⟨st', hfind, ?_, ?_, hage⟩
    · rw [hraw]
      cases mapFind s.m_flowStats item.hash <;> rfl
    · rw [htx]
      cases mapFind s.m_flowStats item.hash <;> rfl
  · intro apps item now hprofile hfresh
    obtain ⟨limits, hp, _, _⟩ := profileLimits_valid s.m_profile hprofile.1 hprofile.2
    have hage := updatedStats_flowAge_of_fresh s item now hfresh
    have hcall := DoClassify_young host s apps item now limits hon hp hage
    obtain ⟨st', hfind, hraw, htx, _, _⟩ := hstep s apps item now 0 _ hon hcall
    obtain ⟨_, _, _, _, _, _, _, _, _, _, h9⟩ := stored_record host s _ apps item now 0 hcall
    refine ⟨_, st', hcall, hfind, ?_⟩
    rw [hraw, htx, hfresh]
    rw [mapFind_after_call host s _ apps item now 0 hcall] at hfind
    cases hfind
    simp only [] at h9 ⊢
    rw [classifiedStats_shape, hage]
    simp [freshStats]
  · intro hs
    induction hs with
    | create alpha profile usePbs nonBlind =>
      intro f st hf
      simp [PbsPacketFilter.create, mapFind] at hf
    | step apps item now bin _ hcall ih =>
      intro f st hf
      have hprev := (DoClassify_ok_state host _ _ apps item now bin hcall).2.2.1
      have hon' := hprev.symm.trans hon
      by_cases hfe : item.hash = f
      · subst hfe
        obtain ⟨st', hfind, hraw, _, hpk, _⟩ := hstep _ apps item now bin _ hon' hcall
        rw [hfind] at hf
        cases hf
        rw [hraw, hpk, List.length_append, List.length_singleton]
        congr 1
        cases hold : mapFind _ item.hash with
        | none => rfl
        | some old => exact ih hon' item.hash old hold
      · rw [mapFind_after_call_of_ne host _ _ apps item now bin f hcall hfe] at hf
        exact ih hon' f st hf

/-- C16, witness: profile 4, alpha 10, blind mode, PBS on; the first packet of
flow 1 (100 bytes at t=0) is classified and the flow's raw history is the single
entry for it. -/
theorem raw_history_append_witness :
    ∃ s' st', DoClassify exampleHost (PbsPacketFilter.create (Dbl.fin 10) 4 true false) []
        { hash := 1, size := 100 } 0 = .ok (0, s') ∧
      mapFind s'.m_flowStats 1 = some st' ∧
      st'.rawPrioHistory = [(rawScore exampleHost (PbsPacketFilter.create (Dbl.fin 10) 4 true false)
        [] { hash := 1, size := 100 } 0, 100, 0)] :=
  (raw_history_append exampleHost (PbsPacketFilter.create (Dbl.fin 10) 4 true false) rfl).2.1
    [] { hash := 1, size := 100 } 0 ⟨by decide, by decide⟩ rfl

/-! ## claims C17 and C18: bytes remaining -/

theorem bytesRemaining_facts (fs tx : Nat) :
    ((bytesRemaining fs tx : Nat) : Int) = ((fs : Int) - (tx : Int)) % (2 ^ 32 : Int) ∧
    bytesRemaining fs tx < 2 ^ 32 ∧
    (tx ≤ fs → fs - tx < 2 ^ 32 → bytesRemaining fs tx = fs - tx) ∧
    (fs < tx → tx - fs ≤ 2 ^ 32 → bytesRemaining fs tx = 2 ^ 32 - (tx - fs)) := by
  unfold bytesRemaining
  norm_num
  omega

theorem rawScore_nonBlind (host : Host) (self : PbsPacketFilter)
    (apps : List (Option BulkSendApplication)) (item : QueueDiscItem) (now : Nat)
    (hon : self.m_usePbs = true) (hnb : self.m_nonBlind = true) :
    rawScore host self apps item now =
      Dbl.div (Dbl.ofInt (updatedStats self item now).flowAge)
        (host.pow (Dbl.ofNat (bytesRemaining (classifiedStats host self apps item now).flowSize
          (updatedStats self item now).txBytes)) self.m_alpha) := by
  simp only [classifiedStats, hon, if_true, scoredStats, rawScore, hnb]
  by_cases hz : (updatedStats self item now).flowSize = 0
  · rw [rawPrio_resolved _ _ _ _ _ hz]
  · rw [rawPrio_cached _ _ _ _ _ hz]

/-- C17, as stated, fails: profile 4, alpha 1, non-blind; flow 6 has 100 cached
as its size and has sent 150 bytes; with a further 50-byte packet at t=1000 ns
the bytes-remaining value is 4294967196 = 2^32 - 100, not the negative
difference 100 - 200, and the raw score is 1000/4294967196. -/
theorem bytes_remaining_not_negative :
    bytesRemaining 100 200 = 4294967196 ∧
    ((bytesRemaining 100 200 : Nat) : Int) ≠ (100 : Int) - (200 : Int) ∧
    rawScore exampleHost (seenOnePacketNonBlind (Dbl.fin 1) 4 150 100) []
      { hash := 6, size := 50 } 1000 = Dbl.fin (1000 / 4294967196) := by
  have hb : bytesRemaining 100 200 = 4294967196 := by
    have h := (bytesRemaining_facts 100 200).2.2.2 (by decide) (by decide)
    rw [h]
    norm_num
  refine ⟨hb, by rw [hb]; norm_num, ?_⟩
  rw [rawScore_nonBlind exampleHost _ [] _ 1000 rfl rfl, classifiedStats_flowSize]
  have hen : enumeratesCandidates (seenOnePacketNonBlind (Dbl.fin 1) 4 150 100)
      { hash := 6, size := 50 } = false := by
    simp [enumeratesCandidates, GetStatsForFlow, seenOnePacketNonBlind, mapFind]
  have htx : (updatedStats (seenOnePacketNonBlind (Dbl.fin 1) 4 150 100)
      { hash := 6, size := 50 } 1000).txBytes = 200 := by
    simp [updatedStats, GetStatsForFlow, seenOnePacketNonBlind, mapFind, touch]
  have hage : (updatedStats (seenOnePacketNonBlind (Dbl.fin 1) 4 150 100)
      { hash := 6, size := 50 } 1000).flowAge = 1000 := by
    simp [updatedStats, GetStatsForFlow, seenOnePacketNonBlind, mapFind, touch]
  have hfs : ((mapFind (seenOnePacketNonBlind (Dbl.fin 1) 4 150 100).m_flowStats
      ({ hash := 6, size := 50 } : QueueDiscItem).hash).getD freshStats).flowSize = 100 := by
    simp [seenOnePacketNonBlind, mapFind]
  rw [hen, htx, hage, hfs]
  simp only [Bool.false_eq_true, if_false, hb]
  simp [seenOnePacketNonBlind, exampleHost, powNatExponent, Dbl.div, Dbl.ofNat, Dbl.ofInt]

/-- C17, amended: in non-blind mode with PBS on, the raw score is the flow age
divided by `pow (bytes_remaining, alpha)`, where `bytes_remaining` is the
difference `flowSize - txBytes` (the size stored by the call, the updated
`txBytes`) reduced modulo 2^32, never clamped and never negative: the exact
difference when it lies in 0..2^32-1, and `2^32 - (txBytes - flowSize)` when
the flow size is smaller than the bytes transmitted by at most 2^32. -/
theorem bytes_remaining_modulo (host : Host) (self : PbsPacketFilter)
    (apps : List (Option BulkSendApplication)) (item : QueueDiscItem) (now : Nat)
    (hon : self.m_usePbs = true) (hnb : self.m_nonBlind = true) :
    rawScore host self apps item now =
      Dbl.div (Dbl.ofInt (updatedStats self item now).flowAge)
        (host.pow (Dbl.ofNat (bytesRemaining (classifiedStats host self apps item now).flowSize
          (updatedStats self item now).txBytes)) self.m_alpha) ∧
    ∀ fs tx : Nat,
      ((bytesRemaining fs tx : Nat) : Int) = ((fs : Int) - (tx : Int)) % (2 ^ 32 : Int) ∧
      bytesRemaining fs tx < 2 ^ 32 ∧
      (tx ≤ fs → fs - tx < 2 ^ 32 → bytesRemaining fs tx = fs - tx) ∧
      (fs < tx → tx - fs ≤ 2 ^ 32 → bytesRemaining fs tx = 2 ^ 32 - (tx - fs)) :=
  ⟨rawScore_nonBlind host self apps item now hon hnb, bytesRemaining_facts⟩

/-- C17, witness of the amended statement: flow 6 has 5000 cached and has sent
100 bytes; with a further 100-byte packet 4800 bytes remain. -/
theorem bytes_remaining_modulo_witness :
    rawScore exampleHost (seenOnePacketNonBlind (Dbl.fin 1) 4 100 5000) []
        { hash := 6, size := 100 } 1000 =
      Dbl.div (Dbl.ofInt (updatedStats (seenOnePacketNonBlind (Dbl.fin 1) 4 100 5000)
          { hash := 6, size := 100 } 1000).flowAge)
        (exampleHost.pow (Dbl.ofNat (bytesRemaining
          (classifiedStats exampleHost (seenOnePacketNonBlind (Dbl.fin 1) 4 100 5000) []
            { hash := 6, size := 100 } 1000).flowSize
          (updatedStats (seenOnePacketNonBlind (Dbl.fin 1) 4 100 5000)
            { hash := 6, size := 100 } 1000).txBytes))
          (seenOnePacketNonBlind (Dbl.fin 1) 4 100 5000).m_alpha) ∧
      bytesRemaining 5000 200 = 5000 - 200 :=
  have h := bytes_remaining_modulo exampleHost (seenOnePacketNonBlind (Dbl.fin 1) 4 100 5000) []
    { hash := 6, size := 100 } 1000 rfl rfl
  ⟨h.1, (h.2 5000 200).2.2.1 (by decide) (by decide)⟩

/-- C18: in non-blind mode with PBS on, when the flow's `flowSize` is 0 and no
entry of the candidate list matches (the empty list included), the size the call
computes is the flow's updated `txBytes` plus 1, `bytes_remaining` is exactly 1,
the raw score is the flow age divided by `pow (1, alpha)`; every call that
returns has stored `txBytes + 1` as `flowSize`, and for a valid profile a call
that leaves the flow with age 0 does return. -/
theorem resolver_fallback (host : Host) (self : PbsPacketFilter)
    (apps : List (Option BulkSendApplication)) (item : QueueDiscItem) (now : Nat)
    (hon : self.m_usePbs = true) (hnb : self.m_nonBlind = true)
    (hzero : ((mapFind self.m_flowStats item.hash).getD freshStats).flowSize = 0)
    (hno : ∀ c ∈ apps, candidateMatches host item.hash c = false) :
    (classifiedStats host self apps item now).flowSize =
      (updatedStats self item now).txBytes + 1 ∧
    bytesRemaining (classifiedStats host self apps item now).flowSize
      (updatedStats self item now).txBytes = 1 ∧
    rawScore host self apps item now =
      Dbl.div (Dbl.ofInt (updatedStats self item now).flowAge)
        (host.pow (Dbl.ofNat 1) self.m_alpha) ∧
    (∀ b s', DoClassify host self apps item now = .ok (b, s') →
      ∃ st', mapFind s'.m_flowStats item.hash = some st' ∧ st'.flowSize = st'.txBytes + 1) ∧
    ((1 ≤ self.m_profile ∧ self.m_profile ≤ 7) → (updatedStats self item now).flowAge = 0 →
      ∃ s' st', DoClassify host self apps item now = .ok (0, s') ∧
        mapFind s'.m_flowStats item.hash = some st' ∧ st'.flowSize = st'.txBytes + 1) := by
  have hen : enumeratesCandidates self item = true :=
    (enumeratesCandidates_iff self item).mpr ⟨hon, hnb, hzero⟩
  have hsize : (classifiedStats host self apps item now).flowSize =
      (updatedStats self item now).txBytes + 1 := by
    rw [classifiedStats_flowSize, if_pos hen, resolveFlowSize_no_match host item.hash _ apps hno]
  have hone : bytesRemaining (classifiedStats host self apps item now).flowSize
      (updatedStats self item now).txBytes = 1 := by
    rw [hsize, (bytesRemaining_facts _ _).2.2.1 (by omega) (by norm_num)]
    omega
  have hstored : ∀ b s', DoClassify host self apps item now = .ok (b, s') →
      ∃ st', mapFind s'.m_flowStats item.hash = some st' ∧ st'.flowSize = st'.txBytes + 1 := by
    intro b s' hcall
    refine ⟨_, mapFind_after_call host self s' apps item now b hcall, ?_⟩
    simp only []
    rw [hsize]
    conv_rhs => rw [classifiedStats_shape]
  refine ⟨hsize, hone, ?_, hstored, ?_⟩
  · rw [rawScore_nonBlind host self apps item now hon hnb, hone]
  · intro hprofile hage
    obtain ⟨limits, hp, _, _⟩ := profileLimits_valid self.m_profile hprofile.1 hprofile.2
    have hcall := DoClassify_young host self apps item now limits hon hp hage
    obtain ⟨st', h1, h2⟩ := hstored 0 _ hcall
    exact ⟨_, st', hcall, h1, h2⟩

/-- C18, witness: a fresh non-blind filter, profile 4, whose node holds only an
application that hashes differently; the first packet of flow 7 (100 bytes at
t=0) is classified and 101 is stored as the flow size. -/
theorem resolver_fallback_witness :
    ∃ s' st', DoClassify exampleHost (PbsPacketFilter.create (Dbl.fin 1) 4 true true)
        [some (exampleApp 5000)] { hash := 7, size := 100 } 0 = .ok (0, s') ∧
      mapFind s'.m_flowStats 7 = some st' ∧ st'.flowSize = st'.txBytes + 1 :=
  (resolver_fallback exampleHost (PbsPacketFilter.create (Dbl.fin 1) 4 true true)
    [some (exampleApp 5000)] { hash := 7, size := 100 } 0 rfl rfl rfl
    (by simp [candidateMatches, exampleApp, exampleHost, fiveTupleBuf])).2.2.2.2
    ⟨by decide, by decide⟩ (by decide)

/-! ## claim C19: the non-blind ladder and the scan -/

theorem Dbl.le_fin_mono (raw : Dbl) (q r : ℚ) (h : Dbl.le raw (Dbl.fin q) = true) (hqr : q ≤ r) :
    Dbl.le raw (Dbl.fin r) = true := by
  cases raw with
  | nan => simp [Dbl.le] at h
  | negInf => simp [Dbl.le]
  | fin x =>
    simp only [Dbl.le, decide_eq_true_eq] at h ⊢
    exact le_trans h hqr
  | posInf => simp [Dbl.le] at h

theorem nonBlind_ladder_top (limits : List ℚ) (hlen : limits.length = 8)
    (hpw : limits.Pairwise (fun a b => b < a)) :
    ∃ top : ℚ, (fillPrioLimits true limits)[7]? = some (Dbl.fin top) ∧
      ∀ (i : Nat) (t : Dbl), (fillPrioLimits true limits)[i]? = some t →
        ∃ q : ℚ, t = Dbl.fin q ∧ q ≤ top := by
  obtain ⟨a0, a1, a2, a3, a4, a5, a6, a7, rfl⟩ := list_of_length_eight limits hlen
  rw [fillPrioLimits_nonBlind]
  simp only [List.pairwise_cons, List.mem_cons, List.mem_singleton, forall_eq_or_imp,
    forall_eq, List.not_mem_nil, false_implies, implies_true, List.Pairwise.nil, and_true] at hpw
  refine ⟨a0, rfl, ?_⟩
  intro i t hit
  have hi : i < 8 := by
    by_contra hcon
    rw [List.getElem?_eq_none (by simp; omega)] at hit
    cases hit
  interval_cases i <;> simp at hit <;> subst hit <;> refine ⟨_, rfl, ?_⟩ <;> linarith [hpw.1.1]

/-- C19: in non-blind mode with PBS on and a valid profile (`MakePrioLimits`
succeeds and yields the reversed ladder), a packet that leaves the flow with a
non-zero age and whose raw score is `<=` at least one threshold is classified
into bin 7; every call that returns with a non-zero age returned 7, and every
call that returns at all returned 0 or 7, so bins 1..6 are never selected. -/
theorem nonBlind_bin_collapse (host : Host) (self sl : PbsPacketFilter)
    (apps : List (Option BulkSendApplication)) (item : QueueDiscItem) (now : Nat)
    (hon : self.m_usePbs = true) (hnb : self.m_nonBlind = true)
    (hl : MakePrioLimits self = .ok sl) :
    ((updatedStats self item now).flowAge ≠ 0 →
      (∃ (i : Nat) (t : Dbl), i < 8 ∧ sl.m_prioLimits[i]? = some t ∧
        Dbl.le (rawScore host self apps item now) t = true) →
      ∃ s', DoClassify host self apps item now = .ok (7, s')) ∧
    (∀ b s', DoClassify host self apps item now = .ok (b, s') →
      (updatedStats self item now).flowAge ≠ 0 → b = 7) ∧
    (∀ b s', DoClassify host self apps item now = .ok (b, s') → b = 0 ∨ b = 7) := by
  obtain ⟨limits, hp, hlim⟩ := MakePrioLimits_ok self sl hl
  rw [hnb] at hlim
  have hprofile : 1 ≤ self.m_profile ∧ self.m_profile ≤ 7 := by
    have hne : ¬ (self.m_profile = 0 ∨ 8 ≤ self.m_profile) := by
      intro hbad
      rw [(profileLimits_eq_none_iff self.m_profile).mpr hbad] at hp
      cases hp
    omega
  obtain ⟨limits2, hp2, hlen, hpw⟩ := profileLimits_valid self.m_profile hprofile.1 hprofile.2
  rw [hp] at hp2
  cases hp2
  obtain ⟨top, htop, hall⟩ := nonBlind_ladder_top limits hlen hpw
  have hfound : (updatedStats self item now).flowAge ≠ 0 →
      (∃ (i : Nat) (t : Dbl), (fillPrioLimits true limits)[i]? = some t ∧
        Dbl.le (rawScore host self apps item now) t = true) →
      ∃ s', DoClassify host self apps item now = .ok (7, s') := by
    intro hage ⟨i, t, hit, hle⟩
    obtain ⟨q, rfl, hq⟩ := hall i t hit
    have hle7 := Dbl.le_fin_mono _ q top hle hq
    obtain ⟨b, u, s', hrun, hbu, _, hmax⟩ :=
      DoClassify_scan_found host self apps item now limits hon hp hage
        ⟨i, Dbl.fin q, by rw [hnb]; exact hit, hle⟩
    rw [hnb] at hbu hmax
    have hb8 : b < 8 := by
      by_contra hcon
      rw [List.getElem?_eq_none (by rw [fillPrioLimits_length]; omega)] at hbu
      cases hbu
    have hb7 : b = 7 := by
      by_contra hcon
      have hfalse := hmax 7 (Dbl.fin top) (by omega) htop
      rw [hle7] at hfalse
      cases hfalse
    subst hb7
    exact ⟨s', hrun⟩
  have hseven : ∀ b s', DoClassify host self apps item now = .ok (b, s') →
      (updatedStats self item now).flowAge ≠ 0 → b = 7 := by
    intro b s' hcall hage
    by_cases hex : ∃ (i : Nat) (t : Dbl), (fillPrioLimits true limits)[i]? = some t ∧
        Dbl.le (rawScore host self apps item now) t = true
    · obtain ⟨s7, h7⟩ := hfound hage hex
      rw [h7] at hcall
      cases hcall
      rfl
    · have hwrap := DoClassify_scan_wraps host self apps item now limits hon hp hage
        (by
          intro i t hit
          rw [hnb] at hit
          cases hle : Dbl.le (rawScore host self apps item now) t with
          | false => rfl
          | true => exact absurd ⟨i, t, hit, hle⟩ hex)
      rw [hwrap] at hcall
      cases hcall
  refine ⟨?_, hseven, ?_⟩
  · intro hage ⟨i, t, _, hit, hle⟩
    exact hfound hage ⟨i, t, by rw [← hlim]; exact hit, hle⟩
  · intro b s' hcall
    obtain ⟨_, _, _, _, _, _, _, hb⟩ := DoClassify_ok_shape host self s' apps item now b hcall
    rcases hb with hb | hb
    · exact Or.inl hb
    · exact Or.inr (hseven b s' hcall hb)

/-- C19, witness: profile 4, alpha 10, non-blind; flow 6 has 5000 cached and
has sent 100 bytes; a further 100 bytes at t=1000 ns give the raw score
1000/4800^10, below the threshold 2.6e-21 of bin 7: bin 7. -/
theorem nonBlind_bin_collapse_witness :
    ∃ s', DoClassify exampleHost (seenOnePacketNonBlind (Dbl.fin 10) 4 100 5000) []
      { hash := 6, size := 100 } 1000 = .ok (7, s') :=
  (nonBlind_bin_collapse exampleHost (seenOnePacketNonBlind (Dbl.fin 10) 4 100 5000) _ []
    { hash := 6, size := 100 } 1000 rfl rfl rfl).1
    (by simp [updatedStats, GetStatsForFlow, seenOnePacketNonBlind, mapFind, touch])
    ⟨7, Dbl.fin 2.6e-21, by decide, rfl, by
      simp [rawScore, updatedStats, GetStatsForFlow, seenOnePacketNonBlind, mapFind, touch,
        rawPrio, exampleHost, powNatExponent, Dbl.div, Dbl.ofNat, Dbl.ofInt, Dbl.le]
      norm_num⟩

/-! ## claim C20: flow isolation -/

theorem mapSet_keys {V : Type} (m : List (Nat × V)) (key : Nat) (v : V) :
    (mapSet m key v).map Prod.fst =
      if (mapFind m key).isSome = true then m.map Prod.fst else m.map Prod.fst ++ [key] := by
  induction m with
  | nil => simp [mapSet, mapFind]
  | cons hd tl ih =>
    obtain ⟨k, w⟩ := hd
    by_cases hk : k = key
    · simp [mapSet, mapFind, hk]
    · simp only [mapSet, mapFind, hk, if_false, List.map_cons, ih]
      split <;> simp

/-- C20: a successful `DoClassify` on a packet of flow f leaves the stored record
of every other flow exactly as it was (all fields, histories included), removes
no flow, and adds no flow other than f: the list of stored flow identifiers is
unchanged when f was stored and has f appended when it was not. -/
theorem flow_isolation (host : Host) (s s' : PbsPacketFilter)
    (apps : List (Option BulkSendApplication)) (item : QueueDiscItem) (now b : Nat)
    (hcall : DoClassify host s apps item now = .ok (b, s')) :
    (∀ g, g ≠ item.hash → mapFind s'.m_flowStats g = mapFind s.m_flowStats g) ∧
    (∀ g, (mapFind s.m_flowStats g).isSome = true → (mapFind s'.m_flowStats g).isSome = true) ∧
    (∀ g, (mapFind s'.m_flowStats g).isSome = true →
      (mapFind s.m_flowStats g).isSome = true ∨ g = item.hash) ∧
    s'.m_flowStats.map Prod.fst =
      (if (mapFind s.m_flowStats item.hash).isSome = true then s.m_flowStats.map Prod.fst
        else s.m_flowStats.map Prod.fst ++ [item.hash]) := by
  have hne : ∀ g, g ≠ item.hash → mapFind s'.m_flowStats g = mapFind s.m_flowStats g :=
    fun g hg => mapFind_after_call_of_ne host s s' apps item now b g hcall (Ne.symm hg)
  have hself := mapFind_after_call host s s' apps item now b hcall
  refine ⟨hne, ?_, ?_, ?_⟩
  · intro g hg
    by_cases hgf : g = item.hash
    · subst hgf
      rw [hself]
      rfl
    · rw [hne g hgf]
      exact hg
  · intro g hg
    by_cases hgf : g = item.hash
    · exact Or.inr hgf
    · rw [hne g hgf] at hg
      exact Or.inl hg
  · rw [(DoClassify_ok_state host s s' apps item now b hcall).2.2.2.2.2.2, mapSet_keys,
      accounted_flowStats]
    cases hfind : mapFind s.m_flowStats item.hash with
    | none => simp [mapFind_mapSet, mapSet_keys, hfind]
    | some st => simp [hfind]

/-- C20, witness: flow 1 is stored; the first packet of flow 2 (40 bytes at
t=3) leaves the record of flow 1 as it was and appends flow 2 to the store. -/
theorem flow_isolation_witness :
    ∃ s', DoClassify exampleHost (seenOnePacket (Dbl.fin 10) 4 100) []
        { hash := 2, size := 40 } 3 = .ok (0, s') ∧
      mapFind s'.m_flowStats 1 = mapFind (seenOnePacket (Dbl.fin 10) 4 100).m_flowStats 1 ∧
      s'.m_flowStats.map Prod.fst = [1, 2] := by
  have hcall := DoClassify_young exampleHost (seenOnePacket (Dbl.fin 10) 4 100) []
    { hash := 2, size := 40 } 3 _ rfl rfl
    (by simp [updatedStats, GetStatsForFlow, seenOnePacket, mapFind, touch, freshStats])
  have h := flow_isolation exampleHost (seenOnePacket (Dbl.fin 10) 4 100) _ []
    { hash := 2, size := 40 } 3 0 hcall
  exact ⟨_, hcall, h.1 1 (by decide), h.2.2.2⟩

end Pbs
